import Mathlib

namespace Rail

/-!
Verification of the RailJS event bus (`Rail` class, src root `rail.js`, the
full variant with the `clone` option).  JavaScript values that can appear as
event payloads are modelled as trees; every non-primitive node carries an
`id : Nat` standing for its heap identity (the address of the object), so that
sharing and freshness of allocations are observable.  `value-equality` of two
trees is equality after erasing the ids (`stripIds`).
-/

/-- A JavaScript value as the clone engine classifies them: primitives
(`null`, `undefined`, booleans, numbers, strings) and the four structured
kinds handled by `_deepClone` (Date, Array, RegExp, plain object).  Each
structured node carries a heap identity `id`. -/
inductive JSValue where
  | null
  | undef
  | bool (b : Bool)
  | num (n : Int)
  | str (s : String)
  | date (id : Nat) (time : Int)
  | regex (id : Nat) (source : String) (flags : String)
  | arr (id : Nat) (elems : List JSValue)
  | obj (id : Nat) (fields : List (String × JSValue))

mutual

/-- `Rail.prototype._deepClone` (rail.js lines 598-626), with an explicit
allocation counter `c` supplying the heap identities of the freshly created
nodes.  The branch order follows the source: primitive / `Date` / `Array` /
`RegExp` / plain object.  `new Date(obj.getTime())` copies the instant,
`new RegExp(obj)` copies source and flags, `obj.map(item => this._deepClone(item))`
clones array elements in order, and the `for..in` + `hasOwnProperty` loop
copies the own enumerable fields in order. -/
def deepClone : JSValue → Nat → JSValue × Nat
  | .null, c => (.null, c)
  | .undef, c => (.undef, c)
  | .bool b, c => (.bool b, c)
  | .num n, c => (.num n, c)
  | .str s, c => (.str s, c)
  | .date _ t, c => (.date c t, c + 1)
  | .arr _ es, c =>
      let r := deepCloneList es c
      (.arr r.2 r.1, r.2 + 1)
  | .regex _ src fl, c => (.regex c src fl, c + 1)
  | .obj _ fs, c =>
      let r := deepCloneFields fs c
      (.obj r.2 r.1, r.2 + 1)

/-- Clones the elements of an array in order, threading the allocator. -/
def deepCloneList : List JSValue → Nat → List JSValue × Nat
  | [], c => ([], c)
  | v :: vs, c =>
      let r := deepClone v c
      let rs := deepCloneList vs r.2
      (r.1 :: rs.1, rs.2)

/-- Clones the own enumerable fields of an object in order. -/
def deepCloneFields : List (String × JSValue) → Nat → List (String × JSValue) × Nat
  | [], c => ([], c)
  | (k, v) :: fs, c =>
      let r := deepClone v c
      let rs := deepCloneFields fs r.2
      ((k, r.1) :: rs.1, rs.2)

end

mutual

/-- Erases the heap identities; two values are deeply value-equal exactly
when their erasures are equal. -/
def stripIds : JSValue → JSValue
  | .null => .null
  | .undef => .undef
  | .bool b => .bool b
  | .num n => .num n
  | .str s => .str s
  | .date _ t => .date 0 t
  | .regex _ src fl => .regex 0 src fl
  | .arr _ es => .arr 0 (stripIdsList es)
  | .obj _ fs => .obj 0 (stripIdsFields fs)

def stripIdsList : List JSValue → List JSValue
  | [] => []
  | v :: vs => stripIds v :: stripIdsList vs

def stripIdsFields : List (String × JSValue) → List (String × JSValue)
  | [] => []
  | (k, v) :: fs => (k, stripIds v) :: stripIdsFields fs

end

mutual

/-- The heap identities occurring in a value: the addresses of the mutable
substructures reachable from it. -/
def ids : JSValue → List Nat
  | .null | .undef | .bool _ | .num _ | .str _ => []
  | .date i _ => [i]
  | .regex i _ _ => [i]
  | .arr i es => i :: idsList es
  | .obj i fs => i :: idsFields fs

def idsList : List JSValue → List Nat
  | [] => []
  | v :: vs => ids v ++ idsList vs

def idsFields : List (String × JSValue) → List Nat
  | [] => []
  | (_, v) :: fs => ids v ++ idsFields fs

end

mutual

/-- Mutation of the heap cell with identity `i`: every node whose identity is
`i` is rewritten by `g` (after its children are rewritten).  A JavaScript
mutation of a nested field of one value is visible through every value that
shares the mutated cell, so isolation of a value `p` from such a mutation is
`mutAt i g p = p`. -/
def mutAt (i : Nat) (g : JSValue → JSValue) : JSValue → JSValue
  | .null => .null
  | .undef => .undef
  | .bool b => .bool b
  | .num n => .num n
  | .str s => .str s
  | .date j t => if j = i then g (.date j t) else .date j t
  | .regex j src fl => if j = i then g (.regex j src fl) else .regex j src fl
  | .arr j es =>
      let w : JSValue := .arr j (mutAtList i g es)
      if j = i then g w else w
  | .obj j fs =>
      let w : JSValue := .obj j (mutAtFields i g fs)
      if j = i then g w else w

def mutAtList (i : Nat) (g : JSValue → JSValue) : List JSValue → List JSValue
  | [] => []
  | v :: vs => mutAt i g v :: mutAtList i g vs

def mutAtFields (i : Nat) (g : JSValue → JSValue) : List (String × JSValue) → List (String × JSValue)
  | [] => []
  | (k, v) :: fs => (k, mutAt i g v) :: mutAtFields i g fs

end

/-- The `obj === null || typeof obj !== 'object'` test of `_deepClone`:
primitives, `null` and `undefined`. -/
def isPrim : JSValue → Bool
  | .null | .undef | .bool _ | .num _ | .str _ => true
  | _ => false

/-! ## The event bus

The `Rail` class.  Handler callbacks are embedded as command sequences
(`HAction`): the bus operations a handler may perform, ending in a normal
return, a synchronous throw, or the return of a promise (an async handler).
Handlers in the source receive the event payload as an argument; here the
payload a handler received is recorded in the emission trace instead, and the
handler's own behaviour does not branch on it (no claim needs a
payload-inspecting handler). -/

/-- What a promise returned by an async handler eventually does. -/
inductive PromiseBody where
  | resolves (v : JSValue)
  | rejects (msg : String)

/-- How one handler invocation ended: normal return, synchronous throw, or
return of a (not yet settled) promise. -/
inductive HOutcome where
  | ok (v : JSValue)
  | thrown (msg : String)
  | promise (p : PromiseBody)

mutual

/-- A handler body: a finite sequence of bus calls ending in a return, a
throw, or a returned promise. -/
inductive HAction where
  | ret (v : JSValue)
  | throwErr (msg : String)
  | retPromise (p : PromiseBody)
  | onThen (event : String) (cb : HAction) (moduleName : String) (rest : HAction)
  | offThen (event : String) (lid : Nat) (rest : HAction)
  | emitThen (event : String) (data : JSValue) (rest : HAction)
  | attachThen (m : ModuleDef) (rest : HAction)
  | detachThen (name : String) (rest : HAction)

/-- A module object: `{name, connect?, disconnect?}`. -/
inductive ModuleDef where
  | mk (name : String) (connect : Option HAction) (disconnect : Option HAction)

end

def ModuleDef.name : ModuleDef → String
  | .mk n _ _ => n

def ModuleDef.connect : ModuleDef → Option HAction
  | .mk _ c _ => c

def ModuleDef.disconnect : ModuleDef → Option HAction
  | .mk _ _ d => d

/-- A listener record: `{callback, module, id}` (rail.js lines 106-110). -/
structure Listener where
  callback : HAction
  module : String
  id : Nat

/-- A history entry: `{event, data, timestamp}` (rail.js line 177). -/
structure HistEntry where
  event : String
  data : JSValue
  timestamp : Int

/-- One handler invocation as recorded by the emission trace: which listener
ran, the payload it received, and how it ended.  Trace instrumentation, not
state of the source program. -/
structure Invocation where
  module : String
  id : Nat
  payload : JSValue
  outcome : HOutcome

/-- The mutable state of a `Rail` instance (constructor, rail.js lines 51-66).
`listeners` and `modules` model the two insertion-ordered `Map`s as
association lists.  `freshId` is the heap allocator feeding `deepClone` and
object literals; `now` models `Date.now()` as a constant logical clock;
`pending` records promises returned to the synchronous `emit` path, which the
source discards without attaching any continuation (trace instrumentation). -/
structure RailState where
  clone : Bool
  listeners : List (String × List Listener)
  modules : List (String × ModuleDef)
  eventHistory : List HistEntry
  listenerIdCounter : Nat
  freshId : Nat
  now : Int
  pending : List (String × PromiseBody)

/-- A fresh bus: `new Rail()` with the default options (`clone` on). -/
def initRail (now : Int) : RailState :=
  { clone := true, listeners := [], modules := [], eventHistory := [],
    listenerIdCounter := 0, freshId := 0, now := now, pending := [] }

/-- `Map.get` on the listener table, with a missing key read as the empty
list (`this.listeners.get(event) || []`). -/
def lookupEvent (ls : List (String × List Listener)) (event : String) :
    List Listener :=
  match ls.find? (fun p => p.1 = event) with
  | some p => p.2
  | none => []

/-- `this.listeners.get(event) || []`. -/
def listenersFor (s : RailState) (event : String) : List Listener :=
  lookupEvent s.listeners event

/-- `Map.set`: update the entry in place (keys are unique in a `Map`), or
append a new key at the end, matching a `Map`'s insertion order. -/
def setEventList : List (String × List Listener) → String → List Listener →
    List (String × List Listener)
  | [], event, v => [(event, v)]
  | p :: ps, event, v =>
      if p.1 = event then (event, v) :: ps else p :: setEventList ps event v

/-- `Map.delete` on the listener table. -/
def deleteEventKey (ls : List (String × List Listener)) (event : String) :
    List (String × List Listener) :=
  ls.filter (fun p => p.1 ≠ event)

/-- `on(event, callback, moduleName)` (rail.js lines 96-120): creates the
event's list if absent, pushes a record with a fresh monotonic id, and the
returned unsubscribe capability is the pair `(event, id)`.  Returns the new
listener's id. -/
def railOn (s : RailState) (event : String) (cb : HAction) (moduleName : String) :
    RailState × Nat :=
  let newId := s.listenerIdCounter + 1
  ({ s with
      listenerIdCounter := newId,
      listeners := setEventList s.listeners event
        (listenersFor s event ++ [⟨cb, moduleName, newId⟩]) }, newId)

/-- `off(event, listenerId)` (rail.js lines 136-147): no list for the event
returns false; otherwise the list is filtered by id, the key deleted when the
filtered list is empty, and true is returned (whether or not the id matched). -/
def railOff (s : RailState) (event : String) (lid : Nat) : RailState × Bool :=
  match s.listeners.find? (fun p => p.1 = event) with
  | none => (s, false)
  | some p =>
      let filtered := p.2.filter (fun l => l.id ≠ lid)
      if filtered.isEmpty then
        ({ s with listeners := deleteEventKey s.listeners event }, true)
      else
        ({ s with listeners := setEventList s.listeners event filtered }, true)

/-- The listener-removal loop of `detach` (rail.js lines 449-456): every
event's list is filtered by module name, and events whose list becomes empty
are deleted. -/
def filterOutModule (ls : List (String × List Listener)) (name : String) :
    List (String × List Listener) :=
  (ls.map (fun p => (p.1, p.2.filter (fun l => l.module ≠ name)))).filter
    (fun p => ¬ p.2.isEmpty)

/-- `Map.delete` on the module table. -/
def removeModule (ms : List (String × ModuleDef)) (name : String) :
    List (String × ModuleDef) :=
  ms.filter (fun p => p.1 ≠ name)

/-- `getModules()` (rail.js lines 492-494). -/
def getModules (s : RailState) : List String :=
  s.modules.map (fun p => p.1)

/-- The `errorData` object literal of the catch blocks (rail.js lines 205-210
and 304-309): `{module, event, error: error.message, timestamp}`, allocated
fresh. -/
def mkErrObj (s : RailState) (moduleName event msg : String) (ts : Int) :
    JSValue × RailState :=
  (.obj s.freshId [("module", .str moduleName), ("event", .str event),
      ("error", .str msg), ("timestamp", .num ts)],
   { s with freshId := s.freshId + 1 })

/-- The `{moduleName}` literal of the lifecycle events (rail.js lines 405 and
477), allocated fresh. -/
def mkModuleNameObj (s : RailState) (name : String) : JSValue × RailState :=
  (.obj s.freshId [("moduleName", .str name)], { s with freshId := s.freshId + 1 })

/-- `this._deepClone(data)` with the allocator threaded through the bus. -/
def cloneAlloc (s : RailState) (data : JSValue) : JSValue × RailState :=
  let r := deepClone data s.freshId
  (r.1, { s with freshId := r.2 })

/-- A promise that rejected while nothing was subscribed to it becomes a host
unhandled rejection.  The sync `emit` path discards handler-returned promises
without attaching any continuation, so every rejecting promise it collected
is unhandled.  Modelled from the ECMAScript host behaviour for promises with
no rejection handler. -/
def unhandledRejections (pending : List (String × PromiseBody)) : List String :=
  pending.filterMap (fun q =>
    match q.2 with
    | .rejects m => some m
    | .resolves _ => none)

/-- `getHistory(limit)` (rail.js lines 530-532) is
`this.eventHistory.slice(-limit)`.  For `limit = 0` JavaScript evaluates
`-0`, which `slice` treats as start `0`, returning the whole buffer; for
positive `limit` the negative start clamps to `max(length - limit, 0)`,
returning the most recent `min(limit, length)` entries. -/
def getHistory (s : RailState) (limit : Nat) : List HistEntry :=
  if limit = 0 then s.eventHistory
  else s.eventHistory.drop (s.eventHistory.length - limit)

/-- The per-handler result record of `emitAsync`:
`{module, result, error: null}` on success, `{module, result: null, error}`
on failure. -/
structure AsyncResult where
  module : String
  result : JSValue
  error : JSValue

/-!
The interpreter.  `fuel` bounds the depth of the re-entrant calls (a
`rail.error` listener that itself throws re-enters `emit` without bound in
the source, overflowing the stack; the model returns `none` when the fuel
runs out, and every theorem below is stated for terminating runs).

`emit` (rail.js lines 173-227) iterates `this.listeners.get(event) || []`
with `Array.prototype.forEach`.  Handlers running mid-iteration can only
append to that very array (`on` pushes in place) or replace the map entry
with a freshly filtered array (`off`, `detach`); `forEach` fixes the range of
elements it visits before the first callback and never visits appended
elements, so the listeners invoked are exactly the list read at emission
start.  The model therefore iterates over that snapshot while the handlers
rewrite `s.listeners` freely.
-/

mutual

/-- Runs one handler body against the bus. -/
def runAction (fuel : Nat) (s : RailState) (a : HAction) :
    Option (RailState × HOutcome) :=
  match fuel with
  | 0 => none
  | fuel + 1 =>
    match a with
    | .ret v => some (s, .ok v)
    | .throwErr msg => some (s, .thrown msg)
    | .retPromise p => some (s, .promise p)
    | .onThen event cb m rest => runAction fuel (railOn s event cb m).1 rest
    | .offThen event lid rest => runAction fuel (railOff s event lid).1 rest
    | .emitThen event d rest =>
        match railEmit fuel s event d with
        | none => none
        | some r => runAction fuel r.1 rest
    | .attachThen m rest =>
        match railAttach fuel s m with
        | none => none
        | some (s', .error msg) => some (s', .thrown msg)
        | some (s', .ok _) => runAction fuel s' rest
    | .detachThen name rest =>
        match railDetach fuel s name with
        | none => none
        | some r => runAction fuel r.1 rest

/-- `emit(event, data)` (rail.js lines 173-227): push the history entry (the
original payload reference, uncloned), snapshot the listeners, dispatch.
Returns the final state, `handledCount`, and this emission's invocations. -/
def railEmit (fuel : Nat) (s : RailState) (event : String) (data : JSValue) :
    Option (RailState × Nat × List Invocation) :=
  match fuel with
  | 0 => none
  | fuel + 1 =>
    let s0 := { s with eventHistory := s.eventHistory ++ [⟨event, data, s.now⟩] }
    emitListeners fuel event data s.now (listenersFor s0 event) s0

/-- The `forEach` body of `emit` (rail.js lines 186-218): per listener, clone
the payload if cloning is enabled, invoke the callback; a normal return or a
returned promise increments `handledCount` (the promise is discarded — the
source attaches no continuation to it); a synchronous throw is caught and
funnelled into the `rail.error` re-emission. -/
def emitListeners (fuel : Nat) (event : String) (data : JSValue) (ts : Int)
    (snapshot : List Listener) (s : RailState) :
    Option (RailState × Nat × List Invocation) :=
  match fuel with
  | 0 => none
  | fuel + 1 =>
    match snapshot with
    | [] => some (s, 0, [])
    | l :: rest =>
      let pr := if s.clone then cloneAlloc s data else (data, s)
      match runAction fuel pr.2 l.callback with
      | none => none
      | some (s2, .thrown msg) =>
          match emitHandlerError fuel s2 l.module event msg ts with
          | none => none
          | some (s3, _) =>
              match emitListeners fuel event data ts rest s3 with
              | none => none
              | some (s4, c, invs) =>
                  some (s4, c, ⟨l.module, l.id, pr.1, .thrown msg⟩ :: invs)
      | some (s2, .promise p) =>
          let s3 := { s2 with pending := s2.pending ++ [(l.module, p)] }
          match emitListeners fuel event data ts rest s3 with
          | none => none
          | some (s4, c, invs) =>
              some (s4, c + 1, ⟨l.module, l.id, pr.1, .promise p⟩ :: invs)
      | some (s2, .ok v) =>
          match emitListeners fuel event data ts rest s2 with
          | none => none
          | some (s4, c, invs) =>
              some (s4, c + 1, ⟨l.module, l.id, pr.1, .ok v⟩ :: invs)

/-- The catch block shared by `emit` and `emitAsync` (rail.js lines 197-217
and 297-318): build `errorData`, save `this.clone`, force cloning on, emit
`rail.error`, restore the flag.  Returns the `rail.error` emission's direct
invocations. -/
def emitHandlerError (fuel : Nat) (s : RailState) (moduleName event msg : String)
    (ts : Int) : Option (RailState × List Invocation) :=
  match fuel with
  | 0 => none
  | fuel + 1 =>
    let r := mkErrObj s moduleName event msg ts
    let originalClone := r.2.clone
    match railEmit fuel { r.2 with clone := true } "rail.error" r.1 with
    | none => none
    | some (s2, _, invs) => some ({ s2 with clone := originalClone }, invs)

/-- `attach(module)` (rail.js lines 371-408): validity checks, store the
module, run `connect` (rolling the table entry back and failing when it
throws; a returned promise is ignored), then emit `rail.module.attached`. -/
def railAttach (fuel : Nat) (s : RailState) (m : ModuleDef) :
    Option (RailState × Except String Unit) :=
  match fuel with
  | 0 => none
  | fuel + 1 =>
    if m.name = "" then some (s, .error "Module must have a name property")
    else if (s.modules.find? (fun p => p.1 = m.name)).isSome then
      some (s, .error ("Module '" ++ m.name ++ "' is already attached"))
    else
      let s1 := { s with modules := s.modules ++ [(m.name, m)] }
      match (match m.connect with
             | none => some (s1, HOutcome.ok .undef)
             | some conn => runAction fuel s1 conn) with
      | none => none
      | some (s2, .thrown msg) =>
          some ({ s2 with modules := removeModule s2.modules m.name },
                .error ("Failed to connect module '" ++ m.name ++ "': " ++ msg))
      | some (s2, _) =>
          let r := mkModuleNameObj s2 m.name
          match railEmit fuel r.2 "rail.module.attached" r.1 with
          | none => none
          | some (s3, _, _) => some (s3, .ok ())

/-- `detach(moduleName)` (rail.js lines 437-480): absent module returns
false; otherwise remove the module's listeners, run `disconnect` (an error
there is caught and logged, never aborting the detach), remove the module,
emit `rail.module.detached`, return true. -/
def railDetach (fuel : Nat) (s : RailState) (name : String) :
    Option (RailState × Bool) :=
  match fuel with
  | 0 => none
  | fuel + 1 =>
    match s.modules.find? (fun p => p.1 = name) with
    | none => some (s, false)
    | some pm =>
      let s1 := { s with listeners := filterOutModule s.listeners name }
      match (match pm.2.disconnect with
             | none => some (s1, HOutcome.ok .undef)
             | some d => runAction fuel s1 d) with
      | none => none
      | some (s2, _) =>
        let s3 := { s2 with modules := removeModule s2.modules name }
        let r := mkModuleNameObj s3 name
        match railEmit fuel r.2 "rail.module.detached" r.1 with
        | none => none
        | some (s4, _, _) => some (s4, true)

/-- `emitAsync(event, data)` (rail.js lines 267-323): push history, snapshot
the listeners, map every listener to a settled result.  The mapped closures
start in registration order and `Promise.all` keeps the result sequence in
that order; the model runs them in that order. -/
def railEmitAsync (fuel : Nat) (s : RailState) (event : String) (data : JSValue) :
    Option (RailState × List AsyncResult × List Invocation) :=
  match fuel with
  | 0 => none
  | fuel + 1 =>
    let s0 := { s with eventHistory := s.eventHistory ++ [⟨event, data, s.now⟩] }
    emitAsyncListeners fuel event data s.now (listenersFor s0 event) s0

/-- The mapped closure of `emitAsync` (rail.js lines 286-319), per listener:
clone the payload if cloning is enabled, `await callback(eventData)`; a
normal value (or a resolving promise) yields `{module, result, error: null}`;
a synchronous throw or a rejecting promise is caught, funnelled into the
forced-clone `rail.error` re-emission, and yields
`{module, result: null, error: message}`. -/
def emitAsyncListeners (fuel : Nat) (event : String) (data : JSValue) (ts : Int)
    (snapshot : List Listener) (s : RailState) :
    Option (RailState × List AsyncResult × List Invocation) :=
  match fuel with
  | 0 => none
  | fuel + 1 =>
    match snapshot with
    | [] => some (s, [], [])
    | l :: rest =>
      let pr := if s.clone then cloneAlloc s data else (data, s)
      match runAction fuel pr.2 l.callback with
      | none => none
      | some (s2, .ok v) =>
          match emitAsyncListeners fuel event data ts rest s2 with
          | none => none
          | some (s4, res, invs) =>
              some (s4, ⟨l.module, v, .null⟩ :: res, ⟨l.module, l.id, pr.1, .ok v⟩ :: invs)
      | some (s2, .promise (.resolves v)) =>
          match emitAsyncListeners fuel event data ts rest s2 with
          | none => none
          | some (s4, res, invs) =>
              some (s4, ⟨l.module, v, .null⟩ :: res,
                    ⟨l.module, l.id, pr.1, .promise (.resolves v)⟩ :: invs)
      | some (s2, .thrown msg) =>
          match emitHandlerError fuel s2 l.module event msg ts with
          | none => none
          | some (s3, _) =>
              match emitAsyncListeners fuel event data ts rest s3 with
              | none => none
              | some (s4, res, invs) =>
                  some (s4, ⟨l.module, .null, .str msg⟩ :: res,
                        ⟨l.module, l.id, pr.1, .thrown msg⟩ :: invs)
      | some (s2, .promise (.rejects msg)) =>
          match emitHandlerError fuel s2 l.module event msg ts with
          | none => none
          | some (s3, _) =>
              match emitAsyncListeners fuel event data ts rest s3 with
              | none => none
              | some (s4, res, invs) =>
                  some (s4, ⟨l.module, .null, .str msg⟩ :: res,
                        ⟨l.module, l.id, pr.1, .promise (.rejects msg)⟩ :: invs)

end

/-- The settled-result view of one recorded invocation, as `emitAsync` builds
it: a normal return or a resolving promise is a success, a synchronous throw
or a rejecting promise is a failure carrying the message. -/
def resultOfInv (inv : Invocation) : AsyncResult :=
  match inv.outcome with
  | .ok v => ⟨inv.module, v, .null⟩
  | .promise (.resolves v) => ⟨inv.module, v, .null⟩
  | .thrown m => ⟨inv.module, .null, .str m⟩
  | .promise (.rejects m) => ⟨inv.module, .null, .str m⟩

/-- Whether an invocation ended in a synchronous throw. -/
def HOutcome.isThrown : HOutcome → Bool
  | .thrown _ => true
  | _ => false

/-! ## State evolution facts

`Ext s s'` collects the monotonicity facts about how any interpreter step can
change the bus: the listener-id counter and the heap allocator never
decrease, the history and the pending-promise trace only grow at the end,
and the clock is constant. -/

structure Ext (s s' : RailState) : Prop where
  counter_le : s.listenerIdCounter ≤ s'.listenerIdCounter
  freshId_le : s.freshId ≤ s'.freshId
  hist : ∃ t, s'.eventHistory = s.eventHistory ++ t
  pend : ∃ t, s'.pending = s.pending ++ t
  now_eq : s'.now = s.now

/-- The `errorData` object of the catch blocks, as a value with identity
`fid`. -/
def errObjVal (fid : Nat) (m e msg : String) (ts : Int) : JSValue :=
  .obj fid [("module", .str m), ("event", .str e), ("error", .str msg),
    ("timestamp", .num ts)]

/-- A bus with a throwing listener followed by a later-registered listener on
the same event, plus a `rail.error` listener. -/
def busC2 : RailState :=
  { clone := true, listeners := [("e", [{ callback := .throwErr "boom", module := "m1", id := 1 }, { callback := .ret .null, module := "m2", id := 2 }]), ("rail.error", [{ callback := .ret .null, module := "eh", id := 3 }])], modules := [], eventHistory := [], listenerIdCounter := 3, freshId := 0, now := 0, pending := [] }

/-- A bus whose first listener on `t` registers a further `t` listener while
the event is being dispatched. -/
def busC5 : RailState :=
  { clone := true, listeners := [("t", [{ callback := .onThen "t" (.ret .null) "x" (.ret .null), module := "a", id := 1 }, { callback := .ret .null, module := "b", id := 2 }])], modules := [], eventHistory := [], listenerIdCounter := 2, freshId := 0, now := 0, pending := [] }

/-- A bus with one failing and one succeeding listener on `t`. -/
def busC3 : RailState :=
  { clone := true, listeners := [("t", [{ callback := .throwErr "no", module := "a", id := 1 }, { callback := .ret (.num 7), module := "b", id := 2 }])], modules := [], eventHistory := [], listenerIdCounter := 2, freshId := 0, now := 0, pending := [] }

/-- A bus with cloning disabled and a `rail.error` listener. -/
def busC6 : RailState :=
  { clone := false, listeners := [("rail.error", [{ callback := .ret .null, module := "eh", id := 1 }])], modules := [], eventHistory := [], listenerIdCounter := 1, freshId := 0, now := 0, pending := [] }

/-- A connect body that registers a listener and then throws. -/
def badConnectBody : HAction := .onThen "e" (.ret .null) "bad" (.throwErr "boom")

/-- A module whose `connect` partially registers a listener before
throwing. -/
def badConnectModule : ModuleDef := .mk "bad" (some badConnectBody) none

/-- The state after `badConnectModule`'s connect body has run on a fresh bus
(listener registered, about to throw). -/
def c4s2 : RailState :=
  ((runAction 9 { initRail 0 with modules := [("bad", badConnectModule)] }
    badConnectBody).get (by rfl)).1

/-- The state of one `waitFor(event, timeout)` call (rail.js lines 573-589):
the bus, whether the timer is still armed, the promise's settlement (`none`
while pending), and the id of the single-shot listener the call registered.
The timer and the promise live in the JavaScript event loop; the two possible
orders of the race are modelled as the two step functions below. -/
structure WaitForState where
  rail : RailState
  timerActive : Bool
  settled : Option (Except String JSValue)
  listenerId : Nat
  event : String

/-- Entering `waitFor` (lines 574-588): arm the timer and register the
single-shot listener under the module name 'wait-for'.  The listener's
behaviour is the closure modelled by `waitForDeliver`; the stored callback
field is inert. -/
def waitForStart (s : RailState) (event : String) : WaitForState :=
  { rail := (railOn s event (.ret .undef) "wait-for").1, timerActive := true,
    settled := none, listenerId := (railOn s event (.ret .undef) "wait-for").2,
    event := event }

/-- The timer branch (lines 575-577): when the timer fires it only rejects
the promise with the Timeout error.  The bus is untouched: in particular the
listener is not unsubscribed. -/
def waitForTimeout (w : WaitForState) : WaitForState :=
  if w.timerActive then
    { w with
      timerActive := false,
      settled := if w.settled.isSome then w.settled else some (.error ("Timeout waiting for event '" ++ w.event ++ "'")) }
  else w

/-- The listener closure (lines 581-585), run when the event is delivered to
the wait-for listener: clear the timer, unsubscribe the listener, resolve the
promise with the event payload (a no-op if already settled). -/
def waitForDeliver (w : WaitForState) (data : JSValue) : WaitForState :=
  { w with
    rail := (railOff w.rail w.event w.listenerId).1,
    timerActive := false,
    settled := if w.settled.isSome then w.settled else some (.ok data) }

/-- A bus with one async listener that returns a rejecting promise, and a
`rail.error` listener that would record any error event. -/
def busC8 : RailState :=
  { clone := true, listeners := [("e", [{ callback := .retPromise (.rejects "boom"), module := "m", id := 1 }]), ("rail.error", [{ callback := .ret .null, module := "eh", id := 2 }])], modules := [], eventHistory := [], listenerIdCounter := 2, freshId := 0, now := 0, pending := [] }

/-- A bus built through the public API: attach a module named 'anonymous' (a
legal, non-empty module name), then register a listener with the default
module label — `on` without a module name records it under 'anonymous'. -/
def busC9 : RailState :=
  (railOn (((railAttach 10 (initRail 0) (.mk "anonymous" none none)).get (by rfl)).1)
    "e" (.ret .null) "anonymous").1

/-- A bus with an attached module `log`, one of its listeners, and an
anonymous listener on the same event. -/
def busC9w : RailState :=
  { clone := true, listeners := [("e", [{ callback := .ret .null, module := "anonymous", id := 1 }, { callback := .ret .null, module := "log", id := 2 }])], modules := [("log", .mk "log" none none)], eventHistory := [], listenerIdCounter := 2, freshId := 0, now := 0, pending := [] }

/-- A bus with three history entries. -/
def busC10 : RailState :=
  { clone := true, listeners := [], modules := [], eventHistory := [{ event := "a", data := .num 1, timestamp := 0 }, { event := "b", data := .num 2, timestamp := 1 }, { event := "c", data := .num 3, timestamp := 2 }], listenerIdCounter := 0, freshId := 0, now := 3, pending := [] }

mutual

theorem deepClone_counter_le (v : JSValue) (c : Nat) : c ≤ (deepClone v c).2 := by
  cases v with
  | null | undef | bool _ | num _ | str _ => simp [deepClone]
  | date _ _ => simp [deepClone]
  | regex _ _ _ => simp [deepClone]
  | arr _ es =>
      have h := deepCloneList_counter_le es c
      simp only [deepClone]
      omega
  | obj _ fs =>
      have h := deepCloneFields_counter_le fs c
      simp only [deepClone]
      omega

theorem deepCloneList_counter_le (vs : List JSValue) (c : Nat) : c ≤ (deepCloneList vs c).2 := by
  cases vs with
  | nil => simp [deepCloneList]
  | cons v vs =>
      have h1 := deepClone_counter_le v c
      have h2 := deepCloneList_counter_le vs (deepClone v c).2
      simp only [deepCloneList]
      omega

theorem deepCloneFields_counter_le (fs : List (String × JSValue)) (c : Nat) :
    c ≤ (deepCloneFields fs c).2 := by
  cases fs with
  | nil => simp [deepCloneFields]
  | cons f fs =>
      obtain ⟨k, v⟩ := f
      have h1 := deepClone_counter_le v c
      have h2 := deepCloneFields_counter_le fs (deepClone v c).2
      simp only [deepCloneFields]
      omega

end

mutual

theorem deepClone_stripIds (v : JSValue) (c : Nat) :
    stripIds (deepClone v c).1 = stripIds v := by
  cases v with
  | null | undef | bool _ | num _ | str _ => simp [deepClone]
  | date _ _ => simp [deepClone, stripIds]
  | regex _ _ _ => simp [deepClone, stripIds]
  | arr _ es =>
      have h := deepCloneList_stripIds es c
      simp only [deepClone, stripIds]
      exact congrArg (fun l => JSValue.arr 0 l) h
  | obj _ fs =>
      have h := deepCloneFields_stripIds fs c
      simp only [deepClone, stripIds]
      exact congrArg (fun l => JSValue.obj 0 l) h

theorem deepCloneList_stripIds (vs : List JSValue) (c : Nat) :
    stripIdsList (deepCloneList vs c).1 = stripIdsList vs := by
  cases vs with
  | nil => simp [deepCloneList]
  | cons v vs =>
      have h1 := deepClone_stripIds v c
      have h2 := deepCloneList_stripIds vs (deepClone v c).2
      simp only [deepCloneList, stripIdsList]
      rw [h1, h2]

theorem deepCloneFields_stripIds (fs : List (String × JSValue)) (c : Nat) :
    stripIdsFields (deepCloneFields fs c).1 = stripIdsFields fs := by
  cases fs with
  | nil => simp [deepCloneFields]
  | cons f fs =>
      obtain ⟨k, v⟩ := f
      have h1 := deepClone_stripIds v c
      have h2 := deepCloneFields_stripIds fs (deepClone v c).2
      simp only [deepCloneFields, stripIdsFields]
      rw [h1, h2]

end

mutual

theorem deepClone_ids_range (v : JSValue) (c : Nat) :
    ∀ i ∈ ids (deepClone v c).1, c ≤ i ∧ i < (deepClone v c).2 := by
  cases v with
  | null | undef | bool _ | num _ | str _ => simp [deepClone, ids]
  | date _ _ => simp [deepClone, ids]
  | regex _ _ _ => simp [deepClone, ids]
  | arr _ es =>
      have h := deepCloneList_ids_range es c
      have hc := deepCloneList_counter_le es c
      simp only [deepClone, ids, List.mem_cons]
      intro i hi
      rcases hi with hi | hi
      · omega
      · have := h i hi; omega
  | obj _ fs =>
      have h := deepCloneFields_ids_range fs c
      have hc := deepCloneFields_counter_le fs c
      simp only [deepClone, ids, List.mem_cons]
      intro i hi
      rcases hi with hi | hi
      · omega
      · have := h i hi; omega

theorem deepCloneList_ids_range (vs : List JSValue) (c : Nat) :
    ∀ i ∈ idsList (deepCloneList vs c).1, c ≤ i ∧ i < (deepCloneList vs c).2 := by
  cases vs with
  | nil => simp [deepCloneList, idsList]
  | cons v vs =>
      have h1 := deepClone_ids_range v c
      have h2 := deepCloneList_ids_range vs (deepClone v c).2
      have hc1 := deepClone_counter_le v c
      have hc2 := deepCloneList_counter_le vs (deepClone v c).2
      simp only [deepCloneList, idsList, List.mem_append]
      intro i hi
      rcases hi with hi | hi
      · have := h1 i hi; omega
      · have := h2 i hi; omega

theorem deepCloneFields_ids_range (fs : List (String × JSValue)) (c : Nat) :
    ∀ i ∈ idsFields (deepCloneFields fs c).1, c ≤ i ∧ i < (deepCloneFields fs c).2 := by
  cases fs with
  | nil => simp [deepCloneFields, idsFields]
  | cons f fs =>
      obtain ⟨k, v⟩ := f
      have h1 := deepClone_ids_range v c
      have h2 := deepCloneFields_ids_range fs (deepClone v c).2
      have hc1 := deepClone_counter_le v c
      have hc2 := deepCloneFields_counter_le fs (deepClone v c).2
      simp only [deepCloneFields, idsFields, List.mem_append]
      intro i hi
      rcases hi with hi | hi
      · have := h1 i hi; omega
      · have := h2 i hi; omega

end

mutual

theorem mutAt_not_mem (i : Nat) (g : JSValue → JSValue) (v : JSValue)
    (h : i ∉ ids v) : mutAt i g v = v := by
  cases v with
  | null | undef | bool _ | num _ | str _ => simp [mutAt]
  | date j t =>
      simp only [ids, List.mem_singleton] at h
      simp only [mutAt, if_neg (fun hji : j = i => h hji.symm)]
  | regex j src fl =>
      simp only [ids, List.mem_singleton] at h
      simp only [mutAt, if_neg (fun hji : j = i => h hji.symm)]
  | arr j es =>
      simp only [ids, List.mem_cons, not_or] at h
      have h1 := mutAtList_not_mem i g es h.2
      simp only [mutAt, if_neg (fun hji : j = i => h.1 hji.symm), h1]
  | obj j fs =>
      simp only [ids, List.mem_cons, not_or] at h
      have h1 := mutAtFields_not_mem i g fs h.2
      simp only [mutAt, if_neg (fun hji : j = i => h.1 hji.symm), h1]

theorem mutAtList_not_mem (i : Nat) (g : JSValue → JSValue) (vs : List JSValue)
    (h : i ∉ idsList vs) : mutAtList i g vs = vs := by
  cases vs with
  | nil => simp [mutAtList]
  | cons v vs =>
      simp only [idsList, List.mem_append, not_or] at h
      simp only [mutAtList, mutAt_not_mem i g v h.1, mutAtList_not_mem i g vs h.2]

theorem mutAtFields_not_mem (i : Nat) (g : JSValue → JSValue)
    (fs : List (String × JSValue)) (h : i ∉ idsFields fs) : mutAtFields i g fs = fs := by
  cases fs with
  | nil => simp [mutAtFields]
  | cons f fs =>
      obtain ⟨k, v⟩ := f
      simp only [idsFields, List.mem_append, not_or] at h
      simp only [mutAtFields, mutAt_not_mem i g v h.1, mutAtFields_not_mem i g fs h.2]

end

theorem deepClone_prim (v : JSValue) (c : Nat) (h : isPrim v = true) :
    deepClone v c = (v, c) := by
  cases v with
  | null | undef | bool _ | num _ | str _ => simp [deepClone]
  | date _ _ | regex _ _ _ | arr _ _ | obj _ _ => simp [isPrim] at h

/-- C1: for every payload built from plain objects, arrays, dates, regexes,
primitives, null and undefined (every `JSValue` whose heap identities lie
below the allocation counter `c`), the clone `_deepClone` produces is deeply
value-equal to the payload, shares no mutable substructure with it (its heap
identities are disjoint from the payload's, so mutating any cell of the clone
leaves the payload unchanged), and primitives, null and undefined are
returned as-is. -/
theorem clone_isolated_roundtrip (v : JSValue) (c : Nat) (hc : ∀ i ∈ ids v, i < c) :
    stripIds (deepClone v c).1 = stripIds v
    ∧ (∀ i ∈ ids (deepClone v c).1, i ∉ ids v)
    ∧ (∀ i ∈ ids (deepClone v c).1, ∀ g, mutAt i g v = v)
    ∧ (isPrim v = true → (deepClone v c).1 = v) := by
  refine ⟨deepClone_stripIds v c, ?_, ?_, ?_⟩
  · intro i hi hmem
    have h1 := (deepClone_ids_range v c i hi).1
    have h2 := hc i hmem
    omega
  · intro i hi g
    apply mutAt_not_mem
    intro hmem
    have h1 := (deepClone_ids_range v c i hi).1
    have h2 := hc i hmem
    omega
  · intro h
    rw [deepClone_prim v c h]

/-- Witness for C1 at a concrete nested payload. -/
theorem clone_isolated_roundtrip_witness :
    (∀ i ∈ ids (JSValue.obj 0 [("a", .num 1), ("b", .arr 1 [.null, .str "x"]),
        ("d", .date 7 5)]), i < 8)
    ∧ (stripIds (deepClone (JSValue.obj 0 [("a", .num 1), ("b", .arr 1 [.null, .str "x"]),
          ("d", .date 7 5)]) 8).1
        = stripIds (JSValue.obj 0 [("a", .num 1), ("b", .arr 1 [.null, .str "x"]),
          ("d", .date 7 5)])
      ∧ (∀ i ∈ ids (deepClone (JSValue.obj 0 [("a", .num 1), ("b", .arr 1 [.null, .str "x"]),
          ("d", .date 7 5)]) 8).1,
          i ∉ ids (JSValue.obj 0 [("a", .num 1), ("b", .arr 1 [.null, .str "x"]),
          ("d", .date 7 5)]))
      ∧ (∀ i ∈ ids (deepClone (JSValue.obj 0 [("a", .num 1), ("b", .arr 1 [.null, .str "x"]),
          ("d", .date 7 5)]) 8).1, ∀ g,
          mutAt i g (JSValue.obj 0 [("a", .num 1), ("b", .arr 1 [.null, .str "x"]),
          ("d", .date 7 5)]) = JSValue.obj 0 [("a", .num 1), ("b", .arr 1 [.null, .str "x"]),
          ("d", .date 7 5)])
      ∧ (isPrim (JSValue.obj 0 [("a", .num 1), ("b", .arr 1 [.null, .str "x"]),
          ("d", .date 7 5)]) = true →
          (deepClone (JSValue.obj 0 [("a", .num 1), ("b", .arr 1 [.null, .str "x"]),
          ("d", .date 7 5)]) 8).1
          = JSValue.obj 0 [("a", .num 1), ("b", .arr 1 [.null, .str "x"]), ("d", .date 7 5)])) :=
  ⟨by decide, clone_isolated_roundtrip _ 8 (by decide)⟩

theorem extRefl (s : RailState) : Ext s s :=
  ⟨le_refl _, le_refl _, ⟨[], (List.append_nil _).symm⟩,
   ⟨[], (List.append_nil _).symm⟩, rfl⟩

theorem extTrans {s t u : RailState} (h1 : Ext s t) (h2 : Ext t u) : Ext s u := by
  obtain ⟨c1, f1, ⟨a1, e1⟩, ⟨p1, q1⟩, n1⟩ := h1
  obtain ⟨c2, f2, ⟨a2, e2⟩, ⟨p2, q2⟩, n2⟩ := h2
  exact ⟨le_trans c1 c2, le_trans f1 f2,
    ⟨a1 ++ a2, by rw [e2, e1, List.append_assoc]⟩,
    ⟨p1 ++ p2, by rw [q2, q1, List.append_assoc]⟩, n2.trans n1⟩

theorem extOfEq {s t : RailState} (hc : t.listenerIdCounter = s.listenerIdCounter)
    (hf : t.freshId = s.freshId) (hh : t.eventHistory = s.eventHistory)
    (hp : t.pending = s.pending) (hn : t.now = s.now) : Ext s t :=
  ⟨hc.ge, hf.ge, ⟨[], by rw [hh, List.append_nil]⟩, ⟨[], by rw [hp, List.append_nil]⟩, hn⟩

theorem ext_railOn (s : RailState) (e : String) (cb : HAction) (m : String) :
    Ext s (railOn s e cb m).1 ∧ (railOn s e cb m).1.clone = s.clone :=
  ⟨⟨Nat.le_succ _, le_refl _, ⟨[], (List.append_nil _).symm⟩,
    ⟨[], (List.append_nil _).symm⟩, rfl⟩, rfl⟩

theorem ext_railOff (s : RailState) (e : String) (lid : Nat) :
    Ext s (railOff s e lid).1 ∧ (railOff s e lid).1.clone = s.clone := by
  unfold railOff
  split
  · exact ⟨extRefl s, rfl⟩
  · dsimp only
    split
    · exact ⟨extOfEq rfl rfl rfl rfl rfl, rfl⟩
    · exact ⟨extOfEq rfl rfl rfl rfl rfl, rfl⟩

theorem ext_cloneAlloc (s : RailState) (d : JSValue) :
    Ext s (cloneAlloc s d).2 ∧ (cloneAlloc s d).2.clone = s.clone :=
  ⟨⟨le_refl _, deepClone_counter_le d s.freshId, ⟨[], (List.append_nil _).symm⟩,
    ⟨[], (List.append_nil _).symm⟩, rfl⟩, rfl⟩

theorem ext_mkErrObj (s : RailState) (m e msg : String) (ts : Int) :
    Ext s (mkErrObj s m e msg ts).2 ∧ (mkErrObj s m e msg ts).2.clone = s.clone :=
  ⟨⟨le_refl _, Nat.le_succ _, ⟨[], (List.append_nil _).symm⟩,
    ⟨[], (List.append_nil _).symm⟩, rfl⟩, rfl⟩

theorem ext_mkModuleNameObj (s : RailState) (n : String) :
    Ext s (mkModuleNameObj s n).2 ∧ (mkModuleNameObj s n).2.clone = s.clone :=
  ⟨⟨le_refl _, Nat.le_succ _, ⟨[], (List.append_nil _).symm⟩,
    ⟨[], (List.append_nil _).symm⟩, rfl⟩, rfl⟩

theorem ext_histPush (s : RailState) (entry : HistEntry) :
    Ext s { s with eventHistory := s.eventHistory ++ [entry] } :=
  ⟨le_refl _, le_refl _, ⟨[entry], rfl⟩, ⟨[], (List.append_nil _).symm⟩, rfl⟩

theorem ext_pendPush (s : RailState) (q : String × PromiseBody) :
    Ext s { s with pending := s.pending ++ [q] } :=
  ⟨le_refl _, le_refl _, ⟨[], (List.append_nil _).symm⟩, ⟨[q], rfl⟩, rfl⟩

theorem ext_setListeners (s : RailState) (L : List (String × List Listener)) :
    Ext s { s with listeners := L } :=
  extOfEq rfl rfl rfl rfl rfl

theorem ext_setModules (s : RailState) (M : List (String × ModuleDef)) :
    Ext s { s with modules := M } :=
  extOfEq rfl rfl rfl rfl rfl

theorem ext_setClone (s : RailState) (b : Bool) :
    Ext s { s with clone := b } :=
  extOfEq rfl rfl rfl rfl rfl

theorem ext_clonePayload (s : RailState) (d : JSValue) :
    Ext s (if s.clone then cloneAlloc s d else (d, s)).2 ∧
    (if s.clone then cloneAlloc s d else (d, s)).2.clone = s.clone := by
  split
  · exact ext_cloneAlloc s d
  · exact ⟨extRefl s, rfl⟩

/-- Every interpreter step extends the state monotonically (`Ext`) and
returns with the clone flag it started with: no bus operation changes the
flag on balance — in particular the forced-clone error emission restores it. -/
theorem interpExt (fuel : Nat) :
    (∀ s a r, runAction fuel s a = some r → Ext s r.1 ∧ r.1.clone = s.clone)
    ∧ (∀ s e d r, railEmit fuel s e d = some r → Ext s r.1 ∧ r.1.clone = s.clone)
    ∧ (∀ e d ts snap s r, emitListeners fuel e d ts snap s = some r →
        Ext s r.1 ∧ r.1.clone = s.clone)
    ∧ (∀ s m e msg ts r, emitHandlerError fuel s m e msg ts = some r →
        Ext s r.1 ∧ r.1.clone = s.clone)
    ∧ (∀ s m r, railAttach fuel s m = some r → Ext s r.1 ∧ r.1.clone = s.clone)
    ∧ (∀ s n r, railDetach fuel s n = some r → Ext s r.1 ∧ r.1.clone = s.clone)
    ∧ (∀ s e d r, railEmitAsync fuel s e d = some r → Ext s r.1 ∧ r.1.clone = s.clone)
    ∧ (∀ e d ts snap s r, emitAsyncListeners fuel e d ts snap s = some r →
        Ext s r.1 ∧ r.1.clone = s.clone) := by
  induction fuel with
  | zero =>
      refine ⟨?_, ?_, ?_, ?_, ?_, ?_, ?_, ?_⟩ <;> intro _ <;>
        simp [runAction, railEmit, emitListeners, emitHandlerError, railAttach,
          railDetach, railEmitAsync, emitAsyncListeners]
  | succ fuel ih =>
      obtain ⟨ihRun, ihEmit, ihList, ihErr, ihAtt, ihDet, ihAsync, ihAList⟩ := ih
      refine ⟨?_, ?_, ?_, ?_, ?_, ?_, ?_, ?_⟩
      · -- runAction
        intro s a r h
        cases a with
        | ret v =>
            simp only [runAction, Option.some.injEq] at h
            rw [← h]; exact ⟨extRefl s, rfl⟩
        | throwErr msg =>
            simp only [runAction, Option.some.injEq] at h
            rw [← h]; exact ⟨extRefl s, rfl⟩
        | retPromise p =>
            simp only [runAction, Option.some.injEq] at h
            rw [← h]; exact ⟨extRefl s, rfl⟩
        | onThen e cb m rest =>
            simp only [runAction] at h
            obtain ⟨h1, h2⟩ := ihRun _ _ _ h
            obtain ⟨h3, h4⟩ := ext_railOn s e cb m
            exact ⟨extTrans h3 h1, h2.trans h4⟩
        | offThen e lid rest =>
            simp only [runAction] at h
            obtain ⟨h1, h2⟩ := ihRun _ _ _ h
            obtain ⟨h3, h4⟩ := ext_railOff s e lid
            exact ⟨extTrans h3 h1, h2.trans h4⟩
        | emitThen e d rest =>
            simp only [runAction] at h
            split at h
            · exact absurd h (by simp)
            · rename_i r' hE
              obtain ⟨h1, h2⟩ := ihEmit _ _ _ _ hE
              obtain ⟨h3, h4⟩ := ihRun _ _ _ h
              exact ⟨extTrans h1 h3, h4.trans h2⟩
        | attachThen m rest =>
            simp only [runAction] at h
            split at h
            · exact absurd h (by simp)
            · rename_i s' msg hA
              obtain ⟨h1, h2⟩ := ihAtt _ _ _ hA
              have hr := Option.some.inj h
              exact ⟨by rw [← hr]; exact h1, by rw [← hr]; exact h2⟩
            · rename_i s' u hA
              obtain ⟨h1, h2⟩ := ihAtt _ _ _ hA
              obtain ⟨h3, h4⟩ := ihRun _ _ _ h
              exact ⟨extTrans h1 h3, h4.trans h2⟩
        | detachThen n rest =>
            simp only [runAction] at h
            split at h
            · exact absurd h (by simp)
            · rename_i r' hD
              obtain ⟨h1, h2⟩ := ihDet _ _ _ hD
              obtain ⟨h3, h4⟩ := ihRun _ _ _ h
              exact ⟨extTrans h1 h3, h4.trans h2⟩
      · -- railEmit
        intro s e d r h
        simp only [railEmit] at h
        obtain ⟨h1, h2⟩ := ihList _ _ _ _ _ _ h
        exact ⟨extTrans (ext_histPush s ⟨e, d, s.now⟩) h1, h2⟩
      · -- emitListeners
        intro e d ts snap s r h
        cases snap with
        | nil =>
            simp only [emitListeners, Option.some.injEq] at h
            rw [← h]; exact ⟨extRefl s, rfl⟩
        | cons l rest =>
            simp only [emitListeners] at h
            obtain ⟨hpr, hprc⟩ := ext_clonePayload s d
            split at h
            · exact absurd h (by simp)
            · -- thrown
              rename_i s2 msg hRun
              obtain ⟨h1, h2⟩ := ihRun _ _ _ hRun
              split at h
              · exact absurd h (by simp)
              · rename_i s3 invs2 hErr
                obtain ⟨h3, h4⟩ := ihErr _ _ _ _ _ _ hErr
                split at h
                · exact absurd h (by simp)
                · rename_i s4 c invs hRest
                  obtain ⟨h5, h6⟩ := ihList _ _ _ _ _ _ hRest
                  have hr := Option.some.inj h
                  refine ⟨by rw [← hr]; exact extTrans hpr (extTrans h1 (extTrans h3 h5)), ?_⟩
                  rw [← hr]
                  exact (h6.trans (h4.trans (h2.trans hprc)))
            · -- promise
              rename_i s2 p hRun
              obtain ⟨h1, h2⟩ := ihRun _ _ _ hRun
              split at h
              · exact absurd h (by simp)
              · rename_i s4 c invs hRest
                obtain ⟨h5, h6⟩ := ihList _ _ _ _ _ _ hRest
                have hr := Option.some.inj h
                refine ⟨by rw [← hr]; exact extTrans hpr (extTrans h1 (extTrans (ext_pendPush s2 (l.module, p)) h5)), ?_⟩
                rw [← hr]
                exact (h6.trans (h2.trans hprc))
            · -- ok
              rename_i s2 v hRun
              obtain ⟨h1, h2⟩ := ihRun _ _ _ hRun
              split at h
              · exact absurd h (by simp)
              · rename_i s4 c invs hRest
                obtain ⟨h5, h6⟩ := ihList _ _ _ _ _ _ hRest
                have hr := Option.some.inj h
                refine ⟨by rw [← hr]; exact extTrans hpr (extTrans h1 h5), ?_⟩
                rw [← hr]
                exact (h6.trans (h2.trans hprc))
      · -- emitHandlerError
        intro s m e msg ts r h
        simp only [emitHandlerError] at h
        split at h
        · exact absurd h (by simp)
        · rename_i s2 n invs hE
          obtain ⟨h1, h2⟩ := ihEmit _ _ _ _ hE
          obtain ⟨hm, _⟩ := ext_mkErrObj s m e msg ts
          have hr := Option.some.inj h
          refine ⟨?_, by rw [← hr]; rfl⟩
          rw [← hr]
          exact extTrans hm (extTrans (ext_setClone _ true) (extTrans h1 (ext_setClone _ _)))
      · -- railAttach
        intro s m r h
        simp only [railAttach] at h
        split at h
        · have hr := Option.some.inj h
          rw [← hr]; exact ⟨extRefl s, rfl⟩
        · split at h
          · have hr := Option.some.inj h
            rw [← hr]; exact ⟨extRefl s, rfl⟩
          · split at h
            · exact absurd h (by simp)
            · -- connect threw
              rename_i s2 msg hConn
              have hC : Ext { s with modules := s.modules ++ [(m.name, m)] } s2 ∧
                  s2.clone = ({ s with modules := s.modules ++ [(m.name, m)] } : RailState).clone := by
                cases hc : m.connect with
                | none =>
                    rw [hc] at hConn
                    dsimp only at hConn
                    have h2 := Option.some.inj hConn
                    exact absurd (congrArg Prod.snd h2) (by simp)
                | some conn => rw [hc] at hConn; exact ihRun _ _ _ hConn
              obtain ⟨h1, h2⟩ := hC
              have hr := Option.some.inj h
              refine ⟨?_, ?_⟩
              · rw [← hr]
                exact extTrans (ext_setModules s _) (extTrans h1 (ext_setModules s2 _))
              · rw [← hr]; exact h2
            · -- connect succeeded (or absent)
              rename_i s2 out hne hConn
              have hC : Ext { s with modules := s.modules ++ [(m.name, m)] } s2 ∧
                  s2.clone = ({ s with modules := s.modules ++ [(m.name, m)] } : RailState).clone := by
                cases hc : m.connect with
                | none =>
                    rw [hc] at hConn
                    dsimp only at hConn
                    have h2 := Option.some.inj hConn
                    rw [Prod.mk.injEq] at h2
                    rw [← h2.1]; exact ⟨extRefl _, rfl⟩
                | some conn => rw [hc] at hConn; exact ihRun _ _ _ hConn
              obtain ⟨h1, h2⟩ := hC
              split at h
              · exact absurd h (by simp)
              · rename_i s3 n invs hE
                obtain ⟨h3, h4⟩ := ihEmit _ _ _ _ hE
                obtain ⟨hm, hmc⟩ := ext_mkModuleNameObj s2 m.name
                have hr := Option.some.inj h
                refine ⟨?_, ?_⟩
                · rw [← hr]
                  exact extTrans (ext_setModules s _) (extTrans h1 (extTrans hm h3))
                · rw [← hr]
                  exact h4.trans (hmc.trans h2)
      · -- railDetach
        intro s n r h
        simp only [railDetach] at h
        split at h
        · have hr := Option.some.inj h
          rw [← hr]; exact ⟨extRefl s, rfl⟩
        · rename_i pm hFind
          split at h
          · exact absurd h (by simp)
          · rename_i s2 out hDis
            have hC : Ext { s with listeners := filterOutModule s.listeners n } s2 ∧
                s2.clone = ({ s with listeners := filterOutModule s.listeners n } : RailState).clone := by
              cases hc : pm.2.disconnect with
              | none =>
                  rw [hc] at hDis
                  dsimp only at hDis
                  have h2 := Option.some.inj hDis
                  rw [Prod.mk.injEq] at h2
                  rw [← h2.1]; exact ⟨extRefl _, rfl⟩
              | some d => rw [hc] at hDis; exact ihRun _ _ _ hDis
            obtain ⟨h1, h2⟩ := hC
            split at h
            · exact absurd h (by simp)
            · rename_i s4 cnt invs hE
              obtain ⟨h3, h4⟩ := ihEmit _ _ _ _ hE
              obtain ⟨hm, hmc⟩ := ext_mkModuleNameObj { s2 with modules := removeModule s2.modules n } n
              have hr := Option.some.inj h
              refine ⟨?_, ?_⟩
              · rw [← hr]
                exact extTrans (ext_setListeners s _)
                  (extTrans h1 (extTrans (ext_setModules s2 _) (extTrans hm h3)))
              · rw [← hr]
                exact h4.trans (hmc.trans h2)
      · -- railEmitAsync
        intro s e d r h
        simp only [railEmitAsync] at h
        obtain ⟨h1, h2⟩ := ihAList _ _ _ _ _ _ h
        exact ⟨extTrans (ext_histPush s ⟨e, d, s.now⟩) h1, h2⟩
      · -- emitAsyncListeners
        intro e d ts snap s r h
        cases snap with
        | nil =>
            simp only [emitAsyncListeners, Option.some.injEq] at h
            rw [← h]; exact ⟨extRefl s, rfl⟩
        | cons l rest =>
            simp only [emitAsyncListeners] at h
            obtain ⟨hpr, hprc⟩ := ext_clonePayload s d
            split at h
            · exact absurd h (by simp)
            · -- ok
              rename_i s2 v hRun
              obtain ⟨h1, h2⟩ := ihRun _ _ _ hRun
              split at h
              · exact absurd h (by simp)
              · rename_i s4 res invs hRest
                obtain ⟨h5, h6⟩ := ihAList _ _ _ _ _ _ hRest
                have hr := Option.some.inj h
                exact ⟨by rw [← hr]; exact extTrans hpr (extTrans h1 h5),
                       by rw [← hr]; exact h6.trans (h2.trans hprc)⟩
            · -- promise resolves
              rename_i s2 v hRun
              obtain ⟨h1, h2⟩ := ihRun _ _ _ hRun
              split at h
              · exact absurd h (by simp)
              · rename_i s4 res invs hRest
                obtain ⟨h5, h6⟩ := ihAList _ _ _ _ _ _ hRest
                have hr := Option.some.inj h
                exact ⟨by rw [← hr]; exact extTrans hpr (extTrans h1 h5),
                       by rw [← hr]; exact h6.trans (h2.trans hprc)⟩
            · -- thrown
              rename_i s2 msg hRun
              obtain ⟨h1, h2⟩ := ihRun _ _ _ hRun
              split at h
              · exact absurd h (by simp)
              · rename_i s3 invs2 hErr
                obtain ⟨h3, h4⟩ := ihErr _ _ _ _ _ _ hErr
                split at h
                · exact absurd h (by simp)
                · rename_i s4 res invs hRest
                  obtain ⟨h5, h6⟩ := ihAList _ _ _ _ _ _ hRest
                  have hr := Option.some.inj h
                  exact ⟨by rw [← hr]; exact extTrans hpr (extTrans h1 (extTrans h3 h5)),
                         by rw [← hr]; exact h6.trans (h4.trans (h2.trans hprc))⟩
            · -- promise rejects
              rename_i s2 msg hRun
              obtain ⟨h1, h2⟩ := ihRun _ _ _ hRun
              split at h
              · exact absurd h (by simp)
              · rename_i s3 invs2 hErr
                obtain ⟨h3, h4⟩ := ihErr _ _ _ _ _ _ hErr
                split at h
                · exact absurd h (by simp)
                · rename_i s4 res invs hRest
                  obtain ⟨h5, h6⟩ := ihAList _ _ _ _ _ _ hRest
                  have hr := Option.some.inj h
                  exact ⟨by rw [← hr]; exact extTrans hpr (extTrans h1 (extTrans h3 h5)),
                         by rw [← hr]; exact h6.trans (h4.trans (h2.trans hprc))⟩

theorem histMonoMem {s s' : RailState} (h : Ext s s') {x : HistEntry}
    (hx : x ∈ s.eventHistory) : x ∈ s'.eventHistory := by
  obtain ⟨t, ht⟩ := h.hist
  rw [ht]
  exact List.mem_append_left t hx

theorem pendMonoMem {s s' : RailState} (h : Ext s s') {x : String × PromiseBody}
    (hx : x ∈ s.pending) : x ∈ s'.pending := by
  obtain ⟨t, ht⟩ := h.pend
  rw [ht]
  exact List.mem_append_left t hx

/-- Reading the listener table is unaffected by a history push. -/
theorem listenersFor_histPush (s : RailState) (x : List HistEntry) (e : String) :
    listenersFor { s with eventHistory := x } e = listenersFor s e := rfl

/-- The dispatch loop of `emit` invokes exactly the snapshot it was given, in
order — one invocation per snapshot listener, with its module and id — and
`handledCount` is the number of invocations that did not end in a synchronous
throw. -/
theorem emitListeners_trace (fuel : Nat) : ∀ e d ts snap s r,
    emitListeners fuel e d ts snap s = some r →
    r.2.2.map (fun i => (i.module, i.id)) = snap.map (fun l => (l.module, l.id))
    ∧ r.2.1 = (r.2.2.filter (fun i => !i.outcome.isThrown)).length := by
  induction fuel with
  | zero => intro e d ts snap s r h; simp [emitListeners] at h
  | succ fuel ih =>
      intro e d ts snap s r h
      cases snap with
      | nil =>
          simp only [emitListeners] at h
          have hr := Option.some.inj h
          rw [← hr]
          simp
      | cons l rest =>
          simp only [emitListeners] at h
          split at h
          · exact absurd h (by simp)
          · rename_i s2 msg hRun
            split at h
            · exact absurd h (by simp)
            · rename_i s3 invs2 hErr
              split at h
              · exact absurd h (by simp)
              · rename_i s4 c invsr hRest
                have hr := Option.some.inj h
                obtain ⟨hm, hn⟩ := ih _ _ _ _ _ _ hRest
                rw [← hr]
                refine ⟨?_, ?_⟩
                · simpa using hm
                · simpa [HOutcome.isThrown] using hn
          · rename_i s2 p hRun
            split at h
            · exact absurd h (by simp)
            · rename_i s4 c invsr hRest
              have hr := Option.some.inj h
              obtain ⟨hm, hn⟩ := ih _ _ _ _ _ _ hRest
              rw [← hr]
              refine ⟨?_, ?_⟩
              · simpa using hm
              · simpa [HOutcome.isThrown] using hn
          · rename_i s2 v hRun
            split at h
            · exact absurd h (by simp)
            · rename_i s4 c invsr hRest
              have hr := Option.some.inj h
              obtain ⟨hm, hn⟩ := ih _ _ _ _ _ _ hRest
              rw [← hr]
              refine ⟨?_, ?_⟩
              · simpa using hm
              · simpa [HOutcome.isThrown] using hn

/-- The mapped closures of `emitAsync` produce one invocation and one settled
result per snapshot listener, in order, and each result is the settled view
of its invocation: `{module, result, error: null}` on a normal return or a
resolving promise, `{module, result: null, error: message}` on a throw or a
rejecting promise. -/
theorem emitAsyncListeners_trace (fuel : Nat) : ∀ e d ts snap s r,
    emitAsyncListeners fuel e d ts snap s = some r →
    r.2.2.map (fun i => (i.module, i.id)) = snap.map (fun l => (l.module, l.id))
    ∧ r.2.1 = r.2.2.map resultOfInv := by
  induction fuel with
  | zero => intro e d ts snap s r h; simp [emitAsyncListeners] at h
  | succ fuel ih =>
      intro e d ts snap s r h
      cases snap with
      | nil =>
          simp only [emitAsyncListeners] at h
          have hr := Option.some.inj h
          rw [← hr]
          simp
      | cons l rest =>
          simp only [emitAsyncListeners] at h
          split at h
          · exact absurd h (by simp)
          · rename_i s2 v hRun
            split at h
            · exact absurd h (by simp)
            · rename_i s4 res invsr hRest
              have hr := Option.some.inj h
              obtain ⟨hm, hn⟩ := ih _ _ _ _ _ _ hRest
              rw [← hr]
              exact ⟨by simpa using hm, by simpa [resultOfInv] using hn⟩
          · rename_i s2 v hRun
            split at h
            · exact absurd h (by simp)
            · rename_i s4 res invsr hRest
              have hr := Option.some.inj h
              obtain ⟨hm, hn⟩ := ih _ _ _ _ _ _ hRest
              rw [← hr]
              exact ⟨by simpa using hm, by simpa [resultOfInv] using hn⟩
          · rename_i s2 msg hRun
            split at h
            · exact absurd h (by simp)
            · rename_i s3 invs2 hErr
              split at h
              · exact absurd h (by simp)
              · rename_i s4 res invsr hRest
                have hr := Option.some.inj h
                obtain ⟨hm, hn⟩ := ih _ _ _ _ _ _ hRest
                rw [← hr]
                exact ⟨by simpa using hm, by simpa [resultOfInv] using hn⟩
          · rename_i s2 msg hRun
            split at h
            · exact absurd h (by simp)
            · rename_i s3 invs2 hErr
              split at h
              · exact absurd h (by simp)
              · rename_i s4 res invsr hRest
                have hr := Option.some.inj h
                obtain ⟨hm, hn⟩ := ih _ _ _ _ _ _ hRest
                rw [← hr]
                exact ⟨by simpa using hm, by simpa [resultOfInv] using hn⟩

/-- Every emission leaves its own history entry — the event name, the
original (uncloned) payload reference, and the emission timestamp — in the
final history. -/
theorem railEmit_hist_mem (fuel : Nat) (s : RailState) (e : String) (d : JSValue)
    (r : RailState × Nat × List Invocation) (h : railEmit fuel s e d = some r) :
    (⟨e, d, s.now⟩ : HistEntry) ∈ r.1.eventHistory := by
  cases fuel with
  | zero => simp [railEmit] at h
  | succ fuel =>
      simp only [railEmit] at h
      obtain ⟨hExt, _⟩ := (interpExt fuel).2.2.1 _ _ _ _ _ _ h
      exact histMonoMem hExt (by simp)

/-- Handling a handler failure leaves a `rail.error` history entry carrying
the failing module's name, the event and the error message. -/
theorem emitHandlerError_hist (fuel : Nat) (s : RailState) (m e msg : String)
    (ts : Int) (r : RailState × List Invocation)
    (h : emitHandlerError fuel s m e msg ts = some r) :
    (⟨"rail.error", errObjVal s.freshId m e msg ts, s.now⟩ : HistEntry) ∈
      r.1.eventHistory := by
  cases fuel with
  | zero => simp [emitHandlerError] at h
  | succ fuel =>
      simp only [emitHandlerError] at h
      split at h
      · exact absurd h (by simp)
      · rename_i s2 n invs hE
        have hr := Option.some.inj h
        have hm := railEmit_hist_mem fuel _ _ _ _ hE
        rw [← hr]
        exact hm

/-- When the clone flag reads true, the payload handed to the handler is
`if s.clone then …` reduced to the clone allocation. -/
theorem clonePayload_true {s : RailState} (d : JSValue) (h : s.clone = true) :
    (if s.clone then cloneAlloc s d else (d, s)) = cloneAlloc s d := by
  rw [h]
  simp

theorem clonePayload_hist (s : RailState) (d : JSValue) :
    (if s.clone then cloneAlloc s d else (d, s)).2.eventHistory = s.eventHistory := by
  split <;> rfl

theorem clonePayload_now (s : RailState) (d : JSValue) :
    (if s.clone then cloneAlloc s d else (d, s)).2.now = s.now := by
  split <;> rfl

theorem ext_clonePayload_state (s : RailState) (d : JSValue) :
    Ext s (if s.clone then cloneAlloc s d else (d, s)).2 :=
  (ext_clonePayload s d).1

/-- Every synchronous throw inside the dispatch loop leaves a `rail.error`
history entry naming the throwing module, the event and the message. -/
theorem emitListeners_thrown_hist (fuel : Nat) : ∀ e d ts snap s r,
    emitListeners fuel e d ts snap s = some r →
    ∀ inv ∈ r.2.2, ∀ msg, inv.outcome = .thrown msg →
    ∃ fid, (⟨"rail.error", errObjVal fid inv.module e msg ts, s.now⟩ : HistEntry) ∈
      r.1.eventHistory := by
  induction fuel with
  | zero => intro e d ts snap s r h; simp [emitListeners] at h
  | succ fuel ih =>
      intro e d ts snap s r h
      cases snap with
      | nil =>
          simp only [emitListeners] at h
          have hr := Option.some.inj h
          subst hr
          simp
      | cons l rest =>
          simp only [emitListeners] at h
          split at h
          · exact absurd h (by simp)
          · rename_i s2 msg0 hRun
            split at h
            · exact absurd h (by simp)
            · rename_i s3 invs2 hErr
              split at h
              · exact absurd h (by simp)
              · rename_i s4 c invsr hRest
                have hr := Option.some.inj h
                subst hr
                intro inv hinv msg hout
                have hnow2 : s2.now = s.now := by
                  rw [((interpExt fuel).1 _ _ _ hRun).1.now_eq, clonePayload_now]
                have hnow3 : s3.now = s.now := by
                  rw [show s3 = (s3, invs2).1 from rfl,
                    ((interpExt fuel).2.2.2.1 _ _ _ _ _ _ hErr).1.now_eq]
                  exact hnow2
                have hExt4 : Ext s3 s4 := by
                  rw [show s4 = (s4, c, invsr).1 from rfl]
                  exact ((interpExt fuel).2.2.1 _ _ _ _ _ _ hRest).1
                rcases List.mem_cons.mp hinv with rfl | hmem
                · have hmsg := HOutcome.thrown.inj hout
                  have hhist := emitHandlerError_hist fuel s2 l.module e msg0 ts _ hErr
                  refine ⟨s2.freshId, ?_⟩
                  rw [← hmsg, ← hnow2]
                  exact histMonoMem hExt4 hhist
                · obtain ⟨fid, hf⟩ := ih _ _ _ _ _ _ hRest inv hmem msg hout
                  refine ⟨fid, ?_⟩
                  rw [← hnow3]
                  exact hf
          · rename_i s2 p hRun
            split at h
            · exact absurd h (by simp)
            · rename_i s4 c invsr hRest
              have hr := Option.some.inj h
              subst hr
              intro inv hinv msg hout
              have hnow3 : ({ s2 with pending := s2.pending ++ [(l.module, p)] } : RailState).now = s.now := by
                rw [show ({ s2 with pending := s2.pending ++ [(l.module, p)] } : RailState).now = s2.now from rfl,
                  ((interpExt fuel).1 _ _ _ hRun).1.now_eq, clonePayload_now]
              rcases List.mem_cons.mp hinv with rfl | hmem
              · exact absurd hout (by simp)
              · obtain ⟨fid, hf⟩ := ih _ _ _ _ _ _ hRest inv hmem msg hout
                refine ⟨fid, ?_⟩
                rw [← hnow3]
                exact hf
          · rename_i s2 v hRun
            split at h
            · exact absurd h (by simp)
            · rename_i s4 c invsr hRest
              have hr := Option.some.inj h
              subst hr
              intro inv hinv msg hout
              have hnow2 : s2.now = s.now := by
                rw [((interpExt fuel).1 _ _ _ hRun).1.now_eq, clonePayload_now]
              rcases List.mem_cons.mp hinv with rfl | hmem
              · exact absurd hout (by simp)
              · obtain ⟨fid, hf⟩ := ih _ _ _ _ _ _ hRest inv hmem msg hout
                refine ⟨fid, ?_⟩
                rw [← hnow2]
                exact hf

/-- With the clone flag on, every handler the dispatch loop invokes receives
a payload produced by `_deepClone` of the emitted data at a heap counter at
or above the emission's starting counter. -/
theorem emitListeners_cloned (fuel : Nat) : ∀ e d ts snap s r,
    emitListeners fuel e d ts snap s = some r → s.clone = true →
    ∀ inv ∈ r.2.2, ∃ c, s.freshId ≤ c ∧ inv.payload = (deepClone d c).1 := by
  induction fuel with
  | zero => intro e d ts snap s r h; simp [emitListeners] at h
  | succ fuel ih =>
      intro e d ts snap s r h hcl
      cases snap with
      | nil =>
          simp only [emitListeners] at h
          have hr := Option.some.inj h
          subst hr
          simp
      | cons l rest =>
          simp only [emitListeners] at h
          rw [clonePayload_true d hcl] at h
          have hfr : s.freshId ≤ (cloneAlloc s d).2.freshId :=
            deepClone_counter_le d s.freshId
          split at h
          · exact absurd h (by simp)
          · rename_i s2 msg0 hRun
            obtain ⟨hE2, hC2⟩ := (interpExt fuel).1 _ _ _ hRun
            split at h
            · exact absurd h (by simp)
            · rename_i s3 invs2 hErr
              obtain ⟨hE3, hC3⟩ := (interpExt fuel).2.2.2.1 _ _ _ _ _ _ hErr
              split at h
              · exact absurd h (by simp)
              · rename_i s4 c invsr hRest
                have hr := Option.some.inj h
                subst hr
                intro inv hinv
                rcases List.mem_cons.mp hinv with rfl | hmem
                · exact ⟨s.freshId, le_refl _, rfl⟩
                · have hcl3 : s3.clone = true := by
                    rw [show s3 = (s3, invs2).1 from rfl] at hC3 ⊢
                    rw [hC3, hC2]
                    exact hcl
                  obtain ⟨c0, hc1, hc2⟩ := ih _ _ _ _ _ _ hRest hcl3 inv hmem
                  refine ⟨c0, le_trans ?_ hc1, hc2⟩
                  calc s.freshId ≤ (cloneAlloc s d).2.freshId := hfr
                    _ ≤ s2.freshId := hE2.freshId_le
                    _ ≤ (s3, invs2).1.freshId := hE3.freshId_le
          · rename_i s2 p hRun
            obtain ⟨hE2, hC2⟩ := (interpExt fuel).1 _ _ _ hRun
            split at h
            · exact absurd h (by simp)
            · rename_i s4 c invsr hRest
              have hr := Option.some.inj h
              subst hr
              intro inv hinv
              rcases List.mem_cons.mp hinv with rfl | hmem
              · exact ⟨s.freshId, le_refl _, rfl⟩
              · have hcl3 : ({ s2 with pending := s2.pending ++ [(l.module, p)] } : RailState).clone = true := by
                  rw [show ({ s2 with pending := s2.pending ++ [(l.module, p)] } : RailState).clone = s2.clone from rfl, hC2]
                  exact hcl
                obtain ⟨c0, hc1, hc2⟩ := ih _ _ _ _ _ _ hRest hcl3 inv hmem
                refine ⟨c0, le_trans (le_trans hfr hE2.freshId_le) hc1, hc2⟩
          · rename_i s2 v hRun
            obtain ⟨hE2, hC2⟩ := (interpExt fuel).1 _ _ _ hRun
            split at h
            · exact absurd h (by simp)
            · rename_i s4 c invsr hRest
              have hr := Option.some.inj h
              subst hr
              intro inv hinv
              rcases List.mem_cons.mp hinv with rfl | hmem
              · exact ⟨s.freshId, le_refl _, rfl⟩
              · have hcl2 : s2.clone = true := by rw [hC2]; exact hcl
                obtain ⟨c0, hc1, hc2⟩ := ih _ _ _ _ _ _ hRest hcl2 inv hmem
                refine ⟨c0, le_trans (le_trans hfr hE2.freshId_le) hc1, hc2⟩

/-- Every promise a handler returned to the synchronous dispatch loop ends up
in the floating-promise trace: the source discards it without attaching any
rejection handler. -/
theorem emitListeners_pending (fuel : Nat) : ∀ e d ts snap s r,
    emitListeners fuel e d ts snap s = some r →
    ∀ inv ∈ r.2.2, ∀ p, inv.outcome = .promise p → (inv.module, p) ∈ r.1.pending := by
  induction fuel with
  | zero => intro e d ts snap s r h; simp [emitListeners] at h
  | succ fuel ih =>
      intro e d ts snap s r h
      cases snap with
      | nil =>
          simp only [emitListeners] at h
          have hr := Option.some.inj h
          subst hr
          simp
      | cons l rest =>
          simp only [emitListeners] at h
          split at h
          · exact absurd h (by simp)
          · rename_i s2 msg0 hRun
            split at h
            · exact absurd h (by simp)
            · rename_i s3 invs2 hErr
              split at h
              · exact absurd h (by simp)
              · rename_i s4 c invsr hRest
                have hr := Option.some.inj h
                subst hr
                intro inv hinv p hout
                rcases List.mem_cons.mp hinv with rfl | hmem
                · exact absurd hout (by simp)
                · exact ih _ _ _ _ _ _ hRest inv hmem p hout
          · rename_i s2 p0 hRun
            split at h
            · exact absurd h (by simp)
            · rename_i s4 c invsr hRest
              have hExt4 : Ext { s2 with pending := s2.pending ++ [(l.module, p0)] } s4 := by
                rw [show s4 = (s4, c, invsr).1 from rfl]
                exact ((interpExt fuel).2.2.1 _ _ _ _ _ _ hRest).1
              have hr := Option.some.inj h
              subst hr
              intro inv hinv p hout
              rcases List.mem_cons.mp hinv with rfl | hmem
              · have hp := HOutcome.promise.inj hout
                rw [← hp]
                exact pendMonoMem hExt4 (by simp)
              · exact ih _ _ _ _ _ _ hRest inv hmem p hout
          · rename_i s2 v hRun
            split at h
            · exact absurd h (by simp)
            · rename_i s4 c invsr hRest
              have hr := Option.some.inj h
              subst hr
              intro inv hinv p hout
              rcases List.mem_cons.mp hinv with rfl | hmem
              · exact absurd hout (by simp)
              · exact ih _ _ _ _ _ _ hRest inv hmem p hout

/-- When every snapshot listener is a plain returning or promise-returning
handler (no synchronous throw, no nested bus calls), the synchronous dispatch
loop emits nothing further — the history is untouched past the emission's own
entry — and counts every listener as handled. -/
theorem emitListeners_noThrow (fuel : Nat) : ∀ e d ts snap s r,
    emitListeners fuel e d ts snap s = some r →
    (∀ l ∈ snap, (∃ v, l.callback = .ret v) ∨ (∃ p, l.callback = .retPromise p)) →
    r.1.eventHistory = s.eventHistory ∧ r.2.1 = snap.length := by
  induction fuel with
  | zero => intro e d ts snap s r h; simp [emitListeners] at h
  | succ fuel ih =>
      intro e d ts snap s r h hsnap
      cases snap with
      | nil =>
          simp only [emitListeners] at h
          have hr := Option.some.inj h
          subst hr
          simp
      | cons l rest =>
          have hhd := hsnap l (List.mem_cons_self l rest)
          have hrest := fun x hx => hsnap x (List.mem_cons_of_mem l hx)
          simp only [emitListeners] at h
          split at h
          · exact absurd h (by simp)
          · rename_i s2 msg0 hRun
            exfalso
            rcases hhd with ⟨v, hv⟩ | ⟨p, hv⟩ <;> rw [hv] at hRun <;>
              cases fuel <;> simp [runAction] at hRun
          · rename_i s2 p0 hRun
            rcases hhd with ⟨v, hv⟩ | ⟨p, hv⟩
            · exfalso
              rw [hv] at hRun
              cases fuel <;> simp [runAction] at hRun
            · rw [hv] at hRun
              have hs2 : (if s.clone then cloneAlloc s d else (d, s)).2 = s2 := by
                cases fuel with
                | zero => simp [runAction] at hRun
                | succ g =>
                    simp only [runAction] at hRun
                    exact congrArg Prod.fst (Option.some.inj hRun)
              split at h
              · exact absurd h (by simp)
              · rename_i s4 c invsr hRest
                have hr := Option.some.inj h
                subst hr
                obtain ⟨hh, hc⟩ := ih _ _ _ _ _ _ hRest hrest
                refine ⟨?_, ?_⟩
                · show s4.eventHistory = s.eventHistory
                  have hh2 : s4.eventHistory = s2.eventHistory := by simpa using hh
                  rw [hh2, ← hs2, clonePayload_hist]
                · show c + 1 = (l :: rest).length
                  have hc2 : c = rest.length := by simpa using hc
                  simp [hc2]
          · rename_i s2 v0 hRun
            rcases hhd with ⟨v, hv⟩ | ⟨p, hv⟩
            · rw [hv] at hRun
              have hs2 : (if s.clone then cloneAlloc s d else (d, s)).2 = s2 := by
                cases fuel with
                | zero => simp [runAction] at hRun
                | succ g =>
                    simp only [runAction] at hRun
                    exact congrArg Prod.fst (Option.some.inj hRun)
              split at h
              · exact absurd h (by simp)
              · rename_i s4 c invsr hRest
                have hr := Option.some.inj h
                subst hr
                obtain ⟨hh, hc⟩ := ih _ _ _ _ _ _ hRest hrest
                refine ⟨?_, ?_⟩
                · show s4.eventHistory = s.eventHistory
                  have hh2 : s4.eventHistory = s2.eventHistory := by simpa using hh
                  rw [hh2, ← hs2, clonePayload_hist]
                · show c + 1 = (l :: rest).length
                  have hc2 : c = rest.length := by simpa using hc
                  simp [hc2]
            · exfalso
              rw [hv] at hRun
              cases fuel <;> simp [runAction] at hRun

theorem find?_setEventList (ls : List (String × List Listener)) (e : String)
    (v : List Listener) :
    (setEventList ls e v).find? (fun p => p.1 = e) = some (e, v) := by
  induction ls with
  | nil => simp [setEventList]
  | cons p ps ih =>
      by_cases hp : p.1 = e
      · simp [setEventList, hp]
      · simp only [setEventList, if_neg hp]
        rw [List.find?_cons_of_neg _ (by simpa using hp)]
        exact ih

theorem lookupEvent_setEventList (ls : List (String × List Listener)) (e : String)
    (v : List Listener) : lookupEvent (setEventList ls e v) e = v := by
  unfold lookupEvent
  rw [find?_setEventList]

theorem lookupEvent_deleteEventKey (ls : List (String × List Listener)) (e : String) :
    lookupEvent (deleteEventKey ls e) e = [] := by
  unfold lookupEvent
  rw [List.find?_eq_none.mpr]
  intro x hx
  have hx2 := (List.mem_filter.mp hx).2
  simpa using hx2

theorem lookupEvent_of_not_mem (ls : List (String × List Listener)) (e : String)
    (h : e ∉ ls.map (fun p => p.1)) : lookupEvent ls e = [] := by
  induction ls with
  | nil => rfl
  | cons p ps ih =>
      simp only [List.map_cons, List.mem_cons, not_or] at h
      unfold lookupEvent
      rw [List.find?_cons_of_neg _ (by simpa using fun hq : p.1 = e => h.1 hq.symm)]
      exact ih h.2

theorem keys_filterOutModule (ls : List (String × List Listener)) (name : String)
    {k : String} (hk : k ∈ (filterOutModule ls name).map (fun p => p.1)) :
    k ∈ ls.map (fun p => p.1) := by
  obtain ⟨p, hp, hpk⟩ := List.mem_map.mp hk
  have hp2 := (List.mem_filter.mp hp).1
  obtain ⟨q, hq, hqe⟩ := List.mem_map.mp hp2
  refine List.mem_map.mpr ⟨q, hq, ?_⟩
  rw [← hpk, ← hqe]

/-- `getHistory(limit)` aside, a registered listener enters the event's list
at the end: `on` appends the new record. -/
theorem listenersFor_railOn (s : RailState) (e : String) (cb : HAction) (m : String) :
    listenersFor (railOn s e cb m).1 e =
      listenersFor s e ++ [({ callback := cb, module := m, id := s.listenerIdCounter + 1 } : Listener)] := by
  show lookupEvent (setEventList s.listeners e
    (listenersFor s e ++ [({ callback := cb, module := m, id := s.listenerIdCounter + 1 } : Listener)])) e = _
  rw [lookupEvent_setEventList]

/-- Removing, by id, the listener that `on` just registered restores the
event's listener list, provided the pre-existing ids are below the counter
(they always are: ids are allocated monotonically). -/
theorem listenersFor_railOn_off (s : RailState) (e : String) (cb : HAction) (m : String)
    (hwf : ∀ l ∈ listenersFor s e, l.id < s.listenerIdCounter + 1) :
    listenersFor (railOff (railOn s e cb m).1 e (railOn s e cb m).2).1 e =
      listenersFor s e := by
  have hX : (railOn s e cb m).1.listeners =
      setEventList s.listeners e
        (listenersFor s e ++ [({ callback := cb, module := m, id := s.listenerIdCounter + 1 } : Listener)]) := rfl
  have hfil : (listenersFor s e ++ [({ callback := cb, module := m, id := s.listenerIdCounter + 1 } : Listener)]).filter
      (fun l => l.id ≠ s.listenerIdCounter + 1) = listenersFor s e := by
    rw [List.filter_append]
    have h1 : (listenersFor s e).filter (fun l => l.id ≠ s.listenerIdCounter + 1) =
        listenersFor s e :=
      List.filter_eq_self.mpr (fun l hl => by
        have := hwf l hl
        simp only [ne_eq, decide_eq_true_eq]
        omega)
    have h2 : ([({ callback := cb, module := m, id := s.listenerIdCounter + 1 } : Listener)]).filter
        (fun l => l.id ≠ s.listenerIdCounter + 1) = [] := by simp
    rw [h1, h2, List.append_nil]
  show listenersFor (railOff (railOn s e cb m).1 e (s.listenerIdCounter + 1)).1 e = _
  unfold railOff
  rw [hX, find?_setEventList]
  dsimp only
  rw [hfil]
  by_cases hL : (listenersFor s e).isEmpty
  · rw [if_pos hL]
    show lookupEvent (deleteEventKey (railOn s e cb m).1.listeners e) e = _
    rw [lookupEvent_deleteEventKey]
    exact (List.isEmpty_iff.mp hL).symm
  · rw [if_neg hL]
    show lookupEvent (setEventList (railOn s e cb m).1.listeners e (listenersFor s e)) e = _
    rw [lookupEvent_setEventList]

/-- Reading any event's list after `detach`'s removal loop yields the
original list with that module's records filtered out, provided the table's
keys are unique (they are: the table models a `Map`). -/
theorem lookupEvent_filterOutModule (ls : List (String × List Listener)) (name e : String)
    (hnd : (ls.map (fun p => p.1)).Nodup) :
    lookupEvent (filterOutModule ls name) e =
      (lookupEvent ls e).filter (fun l => l.module ≠ name) := by
  induction ls with
  | nil => rfl
  | cons p ps ih =>
      simp only [List.map_cons, List.nodup_cons] at hnd
      obtain ⟨hp1, hnd2⟩ := hnd
      by_cases hemp : (p.2.filter (fun l => l.module ≠ name)).isEmpty
      · have hunf : filterOutModule (p :: ps) name = filterOutModule ps name := by
          simp only [filterOutModule, List.map_cons, List.filter_cons, hemp]
          simp
        by_cases hpe : p.1 = e
        · have hnotin : e ∉ ps.map (fun q => q.1) := by rw [← hpe]; exact hp1
          have hlk : lookupEvent (p :: ps) e = p.2 := by
            unfold lookupEvent
            rw [List.find?_cons_of_pos _ (by simpa using hpe)]
          rw [hunf, hlk,
            lookupEvent_of_not_mem _ _ (fun hmem => hnotin (keys_filterOutModule ps name hmem))]
          exact (List.isEmpty_iff.mp hemp).symm
        · have hlk : lookupEvent (p :: ps) e = lookupEvent ps e := by
            unfold lookupEvent
            rw [List.find?_cons_of_neg _ (by simpa using hpe)]
          rw [hunf, hlk]
          exact ih hnd2
      · have hunf : filterOutModule (p :: ps) name =
            (p.1, p.2.filter (fun l => l.module ≠ name)) :: filterOutModule ps name := by
          simp only [filterOutModule, List.map_cons, List.filter_cons, hemp]
          simp
        by_cases hpe : p.1 = e
        · have hlk : lookupEvent (p :: ps) e = p.2 := by
            unfold lookupEvent
            rw [List.find?_cons_of_pos _ (by simpa using hpe)]
          have hlk2 : lookupEvent ((p.1, p.2.filter (fun l => l.module ≠ name)) ::
              filterOutModule ps name) e = p.2.filter (fun l => l.module ≠ name) := by
            unfold lookupEvent
            rw [List.find?_cons_of_pos _ (by simpa using hpe)]
          rw [hunf, hlk, hlk2]
        · have hlk : lookupEvent (p :: ps) e = lookupEvent ps e := by
            unfold lookupEvent
            rw [List.find?_cons_of_neg _ (by simpa using hpe)]
          have hlk2 : lookupEvent ((p.1, p.2.filter (fun l => l.module ≠ name)) ::
              filterOutModule ps name) e = lookupEvent (filterOutModule ps name) e := by
            unfold lookupEvent
            rw [List.find?_cons_of_neg _ (by simpa using hpe)]
          rw [hunf, hlk, hlk2]
          exact ih hnd2

/-- An emission with no listeners only appends its history entry: the state
is otherwise unchanged, the handled count is 0 and no handler runs. -/
theorem railEmit_empty (fuel : Nat) (s : RailState) (e : String) (d : JSValue)
    (r : RailState × Nat × List Invocation) (hnil : listenersFor s e = [])
    (h : railEmit fuel s e d = some r) :
    r = ({ s with eventHistory := s.eventHistory ++ [⟨e, d, s.now⟩] }, 0, []) := by
  cases fuel with
  | zero => simp [railEmit] at h
  | succ g =>
      simp only [railEmit] at h
      rw [show listenersFor { s with eventHistory := s.eventHistory ++ [⟨e, d, s.now⟩] } e
          = listenersFor s e from rfl, hnil] at h
      cases g with
      | zero => simp [emitListeners] at h
      | succ g2 =>
          simp only [emitListeners] at h
          exact (Option.some.inj h).symm

theorem mem_unhandledRejections (pend : List (String × PromiseBody)) (m msg : String)
    (h : (m, PromiseBody.rejects msg) ∈ pend) : msg ∈ unhandledRejections pend := by
  unfold unhandledRejections
  exact List.mem_filterMap.mpr ⟨(m, .rejects msg), h, rfl⟩

theorem not_mem_getModules_removeModule (ms : List (String × ModuleDef)) (name : String) :
    name ∉ (removeModule ms name).map (fun p => p.1) := by
  intro h
  obtain ⟨p, hp, hpe⟩ := List.mem_map.mp h
  have h2 := (List.mem_filter.mp hp).2
  simp only [ne_eq, decide_not, Bool.not_eq_eq_eq_not, Bool.not_true,
    decide_eq_false_iff_not] at h2
  exact h2 hpe

/-- C2: when a listener's callback throws synchronously during `emit`, every
other listener of the event's snapshot — in particular every
subsequently-registered one — is still invoked (the invocation trace matches
the snapshot exactly, in order), the exception does not reach the caller
(`emit` returns normally with a count; in this embedding `emit` has no throw
outcome at all, only fuel exhaustion), the returned count is the number of
listeners that completed without a synchronous throw, and for every throwing
listener a `rail.error` event carrying that listener's module name (with the
event and message) is emitted, as witnessed by its history entry. -/
theorem emit_throw_isolation (fuel : Nat) (s : RailState) (e : String) (d : JSValue)
    (r : RailState × Nat × List Invocation) (h : railEmit fuel s e d = some r) :
    r.2.2.map (fun i => (i.module, i.id)) =
      (listenersFor s e).map (fun l => (l.module, l.id))
    ∧ r.2.1 = (r.2.2.filter (fun i => !i.outcome.isThrown)).length
    ∧ (∀ inv ∈ r.2.2, ∀ msg, inv.outcome = .thrown msg →
        ∃ fid, (⟨"rail.error", errObjVal fid inv.module e msg s.now, s.now⟩ : HistEntry) ∈
          r.1.eventHistory) := by
  cases fuel with
  | zero => simp [railEmit] at h
  | succ fuel =>
      simp only [railEmit] at h
      obtain ⟨hm, hn⟩ := emitListeners_trace fuel _ _ _ _ _ _ h
      exact ⟨hm, hn, fun inv hinv msg hout =>
        emitListeners_thrown_hist fuel _ _ _ _ _ _ h inv hinv msg hout⟩

/-- Witness for C2 on `busC2`: the first listener throws, the second is still
invoked, the count is 1 and a `rail.error` entry for module `m1` exists. -/
theorem emit_throw_isolation_witness :
    railEmit 10 busC2 "e" (.num 5) =
      some ((railEmit 10 busC2 "e" (.num 5)).get (by rfl))
    ∧ (((railEmit 10 busC2 "e" (.num 5)).get (by rfl)).2.2.map
          (fun i => (i.module, i.id)) =
        (listenersFor busC2 "e").map (fun l => (l.module, l.id))
      ∧ ((railEmit 10 busC2 "e" (.num 5)).get (by rfl)).2.1 =
          (((railEmit 10 busC2 "e" (.num 5)).get (by rfl)).2.2.filter
            (fun i => !i.outcome.isThrown)).length
      ∧ (∀ inv ∈ ((railEmit 10 busC2 "e" (.num 5)).get (by rfl)).2.2,
          ∀ msg, inv.outcome = .thrown msg →
          ∃ fid, (⟨"rail.error", errObjVal fid inv.module "e" msg busC2.now,
              busC2.now⟩ : HistEntry) ∈
            ((railEmit 10 busC2 "e" (.num 5)).get (by rfl)).1.eventHistory)) :=
  ⟨(Option.some_get (by rfl)).symm,
   emit_throw_isolation 10 busC2 "e" (.num 5) _ (Option.some_get (by rfl)).symm⟩

/-- C3: `emitAsync` resolves to exactly one entry per snapshot listener, in
registration order (never completion order): the invocation trace matches the
snapshot in order, and the result sequence is its image under the settled
view — `{module, result, error: null}` for a handler that returned or whose
promise resolved, `{module, result: null, error: message}` for one that threw
or rejected.  It waits for every handler (each contributes an entry, no
short-circuit on failure).  With zero listeners it resolves to the empty
sequence, and `emit` on the same bus returns 0. -/
theorem emitAsync_results (fuel : Nat) (s : RailState) (e : String) (d : JSValue)
    (r : RailState × List AsyncResult × List Invocation)
    (h : railEmitAsync fuel s e d = some r) :
    r.2.2.map (fun i => (i.module, i.id)) =
      (listenersFor s e).map (fun l => (l.module, l.id))
    ∧ r.2.1 = r.2.2.map resultOfInv
    ∧ r.2.1.length = (listenersFor s e).length
    ∧ (listenersFor s e = [] → r.2.1 = [])
    ∧ (listenersFor s e = [] → ∀ fuel2 r2, railEmit fuel2 s e d = some r2 →
        r2.2.1 = 0 ∧ r2.2.2 = []) := by
  cases fuel with
  | zero => simp [railEmitAsync] at h
  | succ fuel =>
      simp only [railEmitAsync] at h
      obtain ⟨hm, hres⟩ := emitAsyncListeners_trace fuel _ _ _ _ _ _ h
      have hlen : r.2.1.length = (listenersFor s e).length := by
        rw [hres, List.length_map]
        have h2 := congrArg List.length hm
        simpa using h2
      refine ⟨hm, hres, hlen, ?_, ?_⟩
      · intro hnil
        rw [hnil] at hlen
        exact List.length_eq_zero.mp (by simpa using hlen)
      · intro hnil fuel2 r2 h2
        have h3 := railEmit_empty fuel2 s e d r2 hnil h2
        rw [h3]
        exact ⟨rfl, rfl⟩

/-- Witness for C3 on `busC3`: the failing handler contributes
`{a, null, "no"}` first and the succeeding one `{b, 7, null}` second. -/
theorem emitAsync_results_witness :
    railEmitAsync 10 busC3 "t" (.num 1) =
      some ((railEmitAsync 10 busC3 "t" (.num 1)).get (by rfl))
    ∧ (((railEmitAsync 10 busC3 "t" (.num 1)).get (by rfl)).2.2.map
          (fun i => (i.module, i.id)) =
        (listenersFor busC3 "t").map (fun l => (l.module, l.id))
      ∧ ((railEmitAsync 10 busC3 "t" (.num 1)).get (by rfl)).2.1 =
          ((railEmitAsync 10 busC3 "t" (.num 1)).get (by rfl)).2.2.map resultOfInv
      ∧ ((railEmitAsync 10 busC3 "t" (.num 1)).get (by rfl)).2.1.length =
          (listenersFor busC3 "t").length
      ∧ (listenersFor busC3 "t" = [] →
          ((railEmitAsync 10 busC3 "t" (.num 1)).get (by rfl)).2.1 = [])
      ∧ (listenersFor busC3 "t" = [] → ∀ fuel2 r2,
          railEmit fuel2 busC3 "t" (.num 1) = some r2 → r2.2.1 = 0 ∧ r2.2.2 = [])) :=
  ⟨(Option.some_get (by rfl)).symm,
   emitAsync_results 10 busC3 "t" (.num 1) _ (Option.some_get (by rfl)).symm⟩

/-- C5: the listeners an emission invokes are exactly the snapshot of the
event's listener list taken at emission start, in order — a handler that
registers or unregisters listeners or attaches or detaches modules
mid-dispatch can neither remove a snapshot listener from the emission nor get
one invoked twice (the trace equals the snapshot whatever the handlers do) —
and a listener registered for the event during the emission is not invoked
by it: its id is allocated at or above the starting counter, and no such id
occurs in the trace. -/
theorem emit_snapshot_dispatch (fuel : Nat) (s : RailState) (e : String) (d : JSValue)
    (r : RailState × Nat × List Invocation) (h : railEmit fuel s e d = some r)
    (hwf : ∀ l ∈ listenersFor s e, l.id ≤ s.listenerIdCounter) :
    r.2.2.map (fun i => (i.module, i.id)) =
      (listenersFor s e).map (fun l => (l.module, l.id))
    ∧ s.listenerIdCounter ≤ r.1.listenerIdCounter
    ∧ (∀ i, s.listenerIdCounter < i → i ∉ r.2.2.map (fun inv => inv.id)) := by
  cases fuel with
  | zero => simp [railEmit] at h
  | succ fuel =>
      simp only [railEmit] at h
      obtain ⟨hm, _⟩ := emitListeners_trace fuel _ _ _ _ _ _ h
      obtain ⟨hExt, _⟩ := (interpExt fuel).2.2.1 _ _ _ _ _ _ h
      refine ⟨hm, hExt.counter_le, ?_⟩
      intro i hi hmem
      obtain ⟨inv, hinvmem, hinvid⟩ := List.mem_map.mp hmem
      have hpair : (inv.module, inv.id) ∈ r.2.2.map (fun i => (i.module, i.id)) :=
        List.mem_map_of_mem _ hinvmem
      rw [hm] at hpair
      obtain ⟨l, hl, hlp⟩ := List.mem_map.mp hpair
      have hid : l.id = inv.id := by
        simpa using congrArg Prod.snd hlp
      have := hwf l hl
      omega

/-- Witness for C5 on `busC5`, whose first handler registers a new listener
for the same event mid-dispatch: the trace is the two-listener snapshot and
the freshly-registered id 3 is not invoked. -/
theorem emit_snapshot_dispatch_witness :
    (∀ l ∈ listenersFor busC5 "t", l.id ≤ busC5.listenerIdCounter)
    ∧ (((railEmit 10 busC5 "t" (.num 0)).get (by rfl)).2.2.map
          (fun i => (i.module, i.id)) =
        (listenersFor busC5 "t").map (fun l => (l.module, l.id))
      ∧ busC5.listenerIdCounter ≤
          ((railEmit 10 busC5 "t" (.num 0)).get (by rfl)).1.listenerIdCounter
      ∧ (∀ i, busC5.listenerIdCounter < i →
          i ∉ ((railEmit 10 busC5 "t" (.num 0)).get (by rfl)).2.2.map
            (fun inv => inv.id))) :=
  ⟨by decide,
   emit_snapshot_dispatch 10 busC5 "t" (.num 0) _ (Option.some_get (by rfl)).symm
     (by decide)⟩

/-- C6: every handler failure in `emit` or `emitAsync` funnels into the
shared catch-block code (`emitHandlerError`), whose re-entrant `rail.error`
emission delivers to every `rail.error` listener a deep clone of the error
record — value-equal to it and sharing no heap identity with it — regardless
of the bus's current clone setting (the flag is forced on for the error
emission), and once the error emission completes the clone flag equals its
value from before the failure was handled. -/
theorem handlerError_forced_clone (fuel : Nat) (s : RailState) (m e msg : String)
    (ts : Int) (r : RailState × List Invocation)
    (h : emitHandlerError fuel s m e msg ts = some r) :
    r.1.clone = s.clone
    ∧ ∀ inv ∈ r.2, ∃ c, inv.payload = (deepClone (errObjVal s.freshId m e msg ts) c).1
        ∧ stripIds inv.payload = stripIds (errObjVal s.freshId m e msg ts)
        ∧ ∀ i ∈ ids inv.payload, i ∉ ids (errObjVal s.freshId m e msg ts) := by
  cases fuel with
  | zero => simp [emitHandlerError] at h
  | succ fuel =>
      simp only [emitHandlerError] at h
      split at h
      · exact absurd h (by simp)
      · rename_i s2 n invs hE
        have hr := Option.some.inj h
        subst hr
        refine ⟨rfl, ?_⟩
        intro inv hinv
        cases fuel with
        | zero => simp [railEmit] at hE
        | succ fuel2 =>
            simp only [railEmit] at hE
            obtain ⟨c, hc1, hc2⟩ := emitListeners_cloned fuel2 _ _ _ _ _ _ hE rfl inv hinv
            have hge : s.freshId + 1 ≤ c := hc1
            refine ⟨c, hc2, ?_, ?_⟩
            · rw [hc2]
              exact deepClone_stripIds _ c
            · intro i hi hmem
              rw [hc2] at hi
              have h1 := (deepClone_ids_range _ c i hi).1
              have h2 : i = s.freshId := by
                have h3 : ids (errObjVal s.freshId m e msg ts) = [s.freshId] := rfl
                rw [h3] at hmem
                simpa using hmem
              omega

/-- Witness for C6 on `busC6` (cloning globally disabled): the `rail.error`
listener still receives a clone, and the flag reads false again afterwards. -/
theorem handlerError_forced_clone_witness :
    emitHandlerError 10 busC6 "m1" "e" "boom" 0 =
      some ((emitHandlerError 10 busC6 "m1" "e" "boom" 0).get (by rfl))
    ∧ (((emitHandlerError 10 busC6 "m1" "e" "boom" 0).get (by rfl)).1.clone = busC6.clone
      ∧ ∀ inv ∈ ((emitHandlerError 10 busC6 "m1" "e" "boom" 0).get (by rfl)).2,
          ∃ c, inv.payload = (deepClone (errObjVal busC6.freshId "m1" "e" "boom" 0) c).1
            ∧ stripIds inv.payload = stripIds (errObjVal busC6.freshId "m1" "e" "boom" 0)
            ∧ ∀ i ∈ ids inv.payload, i ∉ ids (errObjVal busC6.freshId "m1" "e" "boom" 0)) :=
  ⟨(Option.some_get (by rfl)).symm,
   handlerError_forced_clone 10 busC6 "m1" "e" "boom" 0 _ (Option.some_get (by rfl)).symm⟩

/-- C4 counterexample: attaching `badConnectModule` fails with the connect
error and the module is absent from `getModules`, but the listener its
partial `connect` registered is still reachable in the registry — the claim
that no partially-registered listener remains is false on the code, which
rolls back only the module-table entry. -/
theorem attach_rollback_keeps_listeners :
    ((railAttach 10 (initRail 0) badConnectModule).get (by rfl)).2 =
      Except.error "Failed to connect module 'bad': boom"
    ∧ getModules ((railAttach 10 (initRail 0) badConnectModule).get (by rfl)).1 = []
    ∧ (listenersFor ((railAttach 10 (initRail 0) badConnectModule).get (by rfl)).1 "e").map
        (fun l => (l.module, l.id)) = [("bad", 1)] :=
  ⟨rfl, rfl, rfl⟩

/-- C4 amended: when a module's `connect` throws during `attach`, the attach
operation fails carrying the underlying error message and the module is
absent from `getModules()` afterward, but the listeners the module registered
during its partial connect remain in the registry — the rollback removes only
the module-table entry, not the listeners. -/
theorem attach_connect_throw (fuel : Nat) (s : RailState) (m : ModuleDef)
    (conn : HAction) (s2 : RailState) (msg : String)
    (hname : m.name ≠ "")
    (hdup : (s.modules.find? (fun p => p.1 = m.name)).isSome = false)
    (hconn : m.connect = some conn)
    (hrun : runAction fuel { s with modules := s.modules ++ [(m.name, m)] } conn =
      some (s2, .thrown msg)) :
    railAttach (fuel + 1) s m =
      some ({ s2 with modules := removeModule s2.modules m.name },
        .error ("Failed to connect module '" ++ m.name ++ "': " ++ msg))
    ∧ m.name ∉ getModules { s2 with modules := removeModule s2.modules m.name }
    ∧ ({ s2 with modules := removeModule s2.modules m.name }).listeners = s2.listeners := by
  refine ⟨?_, ?_, rfl⟩
  · simp only [railAttach]
    rw [if_neg hname, if_neg (by simp [hdup]), hconn]
    dsimp only
    rw [hrun]
  · exact not_mem_getModules_removeModule s2.modules m.name

/-- Witness for the amended C4 on a fresh bus. -/
theorem attach_connect_throw_witness :
    railAttach 10 (initRail 0) badConnectModule =
      some ({ c4s2 with modules := removeModule c4s2.modules badConnectModule.name },
        .error ("Failed to connect module '" ++ badConnectModule.name ++ "': " ++ "boom"))
    ∧ badConnectModule.name ∉
        getModules { c4s2 with modules := removeModule c4s2.modules badConnectModule.name }
    ∧ ({ c4s2 with modules := removeModule c4s2.modules badConnectModule.name }).listeners =
        c4s2.listeners :=
  attach_connect_throw 9 (initRail 0) badConnectModule badConnectBody c4s2 "boom"
    (by decide) rfl rfl (by rfl)

/-- C7 counterexample: `waitFor('never', t)` on a fresh bus followed by the
timer firing: the promise has failed with the Timeout error, but the
wait-for listener is still registered — the claim that the listener is
deregistered in either outcome is false on the code, whose timeout branch
only rejects. -/
theorem waitFor_timeout_leak :
    (waitForTimeout (waitForStart (initRail 0) "never")).settled =
      some (.error "Timeout waiting for event 'never'")
    ∧ (listenersFor (waitForTimeout (waitForStart (initRail 0) "never")).rail "never").map
        (fun l => (l.module, l.id)) = [("wait-for", 1)] :=
  ⟨rfl, rfl⟩

/-- C7 amended: if an emission of the event is delivered first, the `waitFor`
promise resolves with the payload and the single-shot listener is
deregistered (the event's listener list returns to its pre-call state); if
the timeout fires first the promise fails with the Timeout error, but the
listener is NOT deregistered — it remains registered after the promise
settles, until a later emission of the event runs it. -/
theorem waitFor_outcomes (s : RailState) (event : String) (data : JSValue)
    (hwf : ∀ l ∈ listenersFor s event, l.id ≤ s.listenerIdCounter) :
    ((waitForDeliver (waitForStart s event) data).settled = some (.ok data)
      ∧ listenersFor (waitForDeliver (waitForStart s event) data).rail event =
          listenersFor s event)
    ∧ ((waitForTimeout (waitForStart s event)).settled =
        some (.error ("Timeout waiting for event '" ++ event ++ "'"))
      ∧ listenersFor (waitForTimeout (waitForStart s event)).rail event =
          listenersFor s event ++
            [({ callback := .ret .undef, module := "wait-for",
                id := s.listenerIdCounter + 1 } : Listener)]) := by
  refine ⟨⟨rfl, ?_⟩, ⟨rfl, ?_⟩⟩
  · exact listenersFor_railOn_off s event (.ret .undef) "wait-for"
      (fun l hl => Nat.lt_succ_of_le (hwf l hl))
  · show listenersFor (waitForStart s event).rail event = _
    exact listenersFor_railOn s event (.ret .undef) "wait-for"

/-- Witness for the amended C7 on `busC2` and its event `e` (two listeners
registered before the call). -/
theorem waitFor_outcomes_witness :
    (∀ l ∈ listenersFor busC2 "e", l.id ≤ busC2.listenerIdCounter)
    ∧ (((waitForDeliver (waitForStart busC2 "e") (.num 4)).settled = some (.ok (.num 4))
        ∧ listenersFor (waitForDeliver (waitForStart busC2 "e") (.num 4)).rail "e" =
            listenersFor busC2 "e")
      ∧ ((waitForTimeout (waitForStart busC2 "e")).settled =
          some (.error ("Timeout waiting for event '" ++ "e" ++ "'"))
        ∧ listenersFor (waitForTimeout (waitForStart busC2 "e")).rail "e" =
            listenersFor busC2 "e" ++
              [({ callback := .ret .undef, module := "wait-for",
                  id := busC2.listenerIdCounter + 1 } : Listener)])) :=
  ⟨by decide, waitFor_outcomes busC2 "e" (.num 4) (by decide)⟩

/-- C8 counterexample: an async handler invoked through synchronous `emit`
returns a rejecting promise.  The handler is invoked and counted, but the
source discards the returned promise without attaching any rejection
handler: although a `rail.error` listener is registered, the final history
carries no `rail.error` entry (only the `e` emission itself), and the
rejection is left to the host as an unhandled rejection — it is not fed into
the `rail.error` pathway, refuting the claim. -/
theorem emit_discards_rejection :
    railEmit 10 busC8 "e" (.num 0) = some ((railEmit 10 busC8 "e" (.num 0)).get (by rfl))
    ∧ ((railEmit 10 busC8 "e" (.num 0)).get (by rfl)).2.1 = 1
    ∧ ((railEmit 10 busC8 "e" (.num 0)).get (by rfl)).1.eventHistory.map
        (fun h => h.event) = ["e"]
    ∧ unhandledRejections ((railEmit 10 busC8 "e" (.num 0)).get (by rfl)).1.pending =
        ["boom"] :=
  ⟨(Option.some_get (by rfl)).symm, rfl, rfl, rfl⟩

/-- C8 amended: an async handler invoked through synchronous `emit` is
invoked but not awaited and counts as handled; the returned promise is
discarded with no rejection handler attached, so when all the event's
handlers are plain returns or returned promises the emission adds nothing to
the history beyond its own entry (no `rail.error` emission occurs), every
returned promise floats unobserved, and a late rejection becomes a host
unhandled rejection instead of being fed into the `rail.error` pathway. -/
theorem emit_fire_forget (fuel : Nat) (s : RailState) (e : String) (d : JSValue)
    (r : RailState × Nat × List Invocation) (h : railEmit fuel s e d = some r)
    (hplain : ∀ l ∈ listenersFor s e,
      (∃ v, l.callback = .ret v) ∨ (∃ p, l.callback = .retPromise p)) :
    r.2.1 = (listenersFor s e).length
    ∧ r.1.eventHistory = s.eventHistory ++ [⟨e, d, s.now⟩]
    ∧ (∀ inv ∈ r.2.2, ∀ p, inv.outcome = .promise p → (inv.module, p) ∈ r.1.pending)
    ∧ (∀ inv ∈ r.2.2, ∀ msg, inv.outcome = .promise (.rejects msg) →
        msg ∈ unhandledRejections r.1.pending) := by
  cases fuel with
  | zero => simp [railEmit] at h
  | succ fuel =>
      simp only [railEmit] at h
      obtain ⟨hh, hc⟩ := emitListeners_noThrow fuel _ _ _ _ _ _ h hplain
      refine ⟨hc, hh, ?_, ?_⟩
      · exact fun inv hinv p hp => emitListeners_pending fuel _ _ _ _ _ _ h inv hinv p hp
      · intro inv hinv msg hmsg
        exact mem_unhandledRejections _ _ _
          (emitListeners_pending fuel _ _ _ _ _ _ h inv hinv _ hmsg)

/-- Witness for the amended C8 on `busC8`. -/
theorem emit_fire_forget_witness :
    ((railEmit 10 busC8 "e" (.num 0)).get (by rfl)).2.1 = (listenersFor busC8 "e").length
    ∧ ((railEmit 10 busC8 "e" (.num 0)).get (by rfl)).1.eventHistory =
        busC8.eventHistory ++ [⟨"e", .num 0, busC8.now⟩]
    ∧ (∀ inv ∈ ((railEmit 10 busC8 "e" (.num 0)).get (by rfl)).2.2, ∀ p,
        inv.outcome = .promise p →
        (inv.module, p) ∈ ((railEmit 10 busC8 "e" (.num 0)).get (by rfl)).1.pending)
    ∧ (∀ inv ∈ ((railEmit 10 busC8 "e" (.num 0)).get (by rfl)).2.2, ∀ msg,
        inv.outcome = .promise (.rejects msg) →
        msg ∈ unhandledRejections ((railEmit 10 busC8 "e" (.num 0)).get (by rfl)).1.pending) :=
  emit_fire_forget 10 busC8 "e" (.num 0) _ (Option.some_get (by rfl)).symm
    (by intro l hl
        have hl2 : l ∈ [({ callback := HAction.retPromise (.rejects "boom"), module := "m", id := 1 } : Listener)] := hl
        rw [List.mem_singleton.mp hl2]
        exact Or.inr ⟨.rejects "boom", rfl⟩)

/-- C9 counterexample: on `busC9`, `detach('anonymous')` succeeds and removes
the listener that was registered anonymously — an anonymous listener does not
survive every detach, because the default module label 'anonymous' collides
with a module actually named 'anonymous'. -/
theorem detach_anonymous_collision :
    (listenersFor busC9 "e").map (fun l => (l.module, l.id)) = [("anonymous", 1)]
    ∧ railDetach 10 busC9 "anonymous" =
        some ((railDetach 10 busC9 "anonymous").get (by rfl))
    ∧ ((railDetach 10 busC9 "anonymous").get (by rfl)).2 = true
    ∧ listenersFor ((railDetach 10 busC9 "anonymous").get (by rfl)).1 "e" = [] :=
  ⟨rfl, (Option.some_get (by rfl)).symm, rfl, rfl⟩

/-- C9 amended: for an attached module (here with no disconnect hook, and
with no `rail.module.detached` listeners that could re-register records
during the detach), `detach` removes exactly the listener records whose
module name equals the detached name and no others; listeners registered
without an explicit module name are recorded under the label 'anonymous', so
they survive any detach of a module whose name differs from 'anonymous' —
but not a detach of a module actually named 'anonymous'. -/
theorem detach_exact_module_listeners (fuel : Nat) (s : RailState) (name : String)
    (m : ModuleDef) (r : RailState × Bool)
    (hfind : s.modules.find? (fun p => p.1 = name) = some (name, m))
    (hdis : m.disconnect = none)
    (hnol : listenersFor s "rail.module.detached" = [])
    (hnd : (s.listeners.map (fun p => p.1)).Nodup)
    (h : railDetach fuel s name = some r) :
    r.2 = true
    ∧ (∀ e, listenersFor r.1 e = (listenersFor s e).filter (fun l => l.module ≠ name))
    ∧ (name ≠ "anonymous" → ∀ e l, l ∈ listenersFor s e → l.module = "anonymous" →
        l ∈ listenersFor r.1 e) := by
  cases fuel with
  | zero => simp [railDetach] at h
  | succ fuel =>
      simp only [railDetach] at h
      rw [hfind] at h
      dsimp only at h
      rw [hdis] at h
      dsimp only at h
      split at h
      · exact absurd h (by simp)
      · rename_i s4 cnt invs hE
        have hnil : ∀ st : RailState, st.listeners = filterOutModule s.listeners name →
            listenersFor st "rail.module.detached" = [] := by
          intro st hst
          show lookupEvent st.listeners "rail.module.detached" = []
          rw [hst, lookupEvent_filterOutModule _ _ _ hnd]
          rw [show lookupEvent s.listeners "rail.module.detached" =
            listenersFor s "rail.module.detached" from rfl, hnol]
          rfl
        have h4 := railEmit_empty fuel _ _ _ _ (hnil _ rfl) hE
        have hs4 : s4 = _ := congrArg Prod.fst h4
        have hr := Option.some.inj h
        subst hr
        have hmain : ∀ e, listenersFor (s4, true).1 e =
            (listenersFor s e).filter (fun l => l.module ≠ name) := by
          intro e
          show listenersFor s4 e = _
          rw [hs4]
          show lookupEvent (filterOutModule s.listeners name) e = _
          rw [lookupEvent_filterOutModule _ _ _ hnd]
          rfl
        refine ⟨rfl, hmain, ?_⟩
        intro hname e l hl hmod
        rw [hmain e]
        refine List.mem_filter.mpr ⟨hl, ?_⟩
        simpa using fun hq : l.module = name => hname (by rw [← hq, hmod])

/-- Witness for the amended C9 on `busC9w`: detaching `log` removes exactly
the `log` record and the anonymous listener survives. -/
theorem detach_exact_module_listeners_witness :
    ((railDetach 10 busC9w "log").get (by rfl)).2 = true
    ∧ (∀ e, listenersFor ((railDetach 10 busC9w "log").get (by rfl)).1 e =
        (listenersFor busC9w e).filter (fun l => l.module ≠ "log"))
    ∧ ("log" ≠ "anonymous" → ∀ e l, l ∈ listenersFor busC9w e →
        l.module = "anonymous" →
        l ∈ listenersFor ((railDetach 10 busC9w "log").get (by rfl)).1 e) :=
  detach_exact_module_listeners 10 busC9w "log" (.mk "log" none none) _
    rfl rfl rfl (by decide) (Option.some_get (by rfl)).symm

/-- C10: on a bus with a non-empty history, `getHistory(0)` returns the
entire history buffer, not an empty sequence — `slice(-0)` is `slice(0)` —
and for every positive limit it returns the most recent
`min(limit, length)` entries in emission order (a suffix of the buffer). -/
theorem getHistory_zero_and_positive (s : RailState) (limit : Nat)
    (hne : s.eventHistory ≠ []) :
    (limit = 0 → getHistory s limit = s.eventHistory)
    ∧ (0 < limit →
        getHistory s limit = s.eventHistory.drop (s.eventHistory.length - limit)
        ∧ (getHistory s limit).length = min limit s.eventHistory.length
        ∧ ∃ t, s.eventHistory = t ++ getHistory s limit) := by
  have hx := hne
  constructor
  · intro h0
    simp [getHistory, h0]
  · intro hpos
    have hne0 : ¬ limit = 0 := by omega
    refine ⟨by simp [getHistory, hne0], ?_, ?_⟩
    · unfold getHistory
      rw [if_neg hne0, List.length_drop]
      rcases Nat.le_total limit s.eventHistory.length with hle | hle
      · rw [min_eq_left hle]
        omega
      · rw [min_eq_right hle]
        omega
    · refine ⟨s.eventHistory.take (s.eventHistory.length - limit), ?_⟩
      unfold getHistory
      rw [if_neg hne0]
      exact (List.take_append_drop _ _).symm

/-- Witness for C10 on `busC10` at limit 2. -/
theorem getHistory_zero_and_positive_witness :
    busC10.eventHistory ≠ []
    ∧ ((2 = 0 → getHistory busC10 2 = busC10.eventHistory)
      ∧ (0 < 2 →
          getHistory busC10 2 = busC10.eventHistory.drop (busC10.eventHistory.length - 2)
          ∧ (getHistory busC10 2).length = min 2 busC10.eventHistory.length
          ∧ ∃ t, busC10.eventHistory = t ++ getHistory busC10 2)) :=
  ⟨List.cons_ne_nil _ _,
   getHistory_zero_and_positive busC10 2 (List.cons_ne_nil _ _)⟩

end Rail
